import Mathlib

/-!
# Verification of the pgimp script-execution and result-marshalling protocol

Shallow embedding of the core of pgimp (GimpScriptRunner and its engine-side
helpers) and proofs about it.

Python strings are modelled as lists of unicode codepoints (List Nat) and
byte strings as lists of byte values (List Nat, each < 256).  This captures
Python semantics exactly: the latin-1 codec maps byte k to codepoint k, and
all string operations used by the runner (startswith, find, strip, split,
rsplit, replace, join) are defined below on codepoint lists following the
Python semantics of each operation.
-/

namespace Pgimp

/-- A Python 3 str: a sequence of unicode codepoints. -/
abbrev PyStr := List Nat

/-- Codepoints of a Lean string literal, used to transport the literals that
appear in the source into the model. -/
def strLit (s : String) : PyStr := s.data.map Char.toNat

/-- Python str.isspace set, as used by str.strip() with no arguments:
ASCII whitespace, the C1 and unicode space characters. -/
def pyIsSpace (c : Nat) : Bool :=
  c = 9 ∨ c = 10 ∨ c = 11 ∨ c = 12 ∨ c = 13 ∨ c = 28 ∨ c = 29 ∨ c = 30 ∨
  c = 31 ∨ c = 32 ∨ c = 133 ∨ c = 160 ∨ c = 5760 ∨
  (8192 ≤ c ∧ c ≤ 8202) ∨ c = 8232 ∨ c = 8233 ∨ c = 8239 ∨ c = 8287 ∨ c = 12288

/-- Python str.strip(): remove leading and trailing whitespace. -/
def pyStrip (s : PyStr) : PyStr :=
  ((s.dropWhile pyIsSpace).reverse.dropWhile pyIsSpace).reverse

/-- Python str.split(sep) for a one-codepoint separator: split at every
occurrence, keeping empty segments.  The result is always nonempty. -/
def pySplit (s : PyStr) (sep : Nat) : List PyStr :=
  match s with
  | [] => [[]]
  | c :: rest =>
      if c = sep then [] :: pySplit rest sep
      else
        match pySplit rest sep with
        | [] => [[c]]
        | seg :: segs => (c :: seg) :: segs

/-- Python s.rsplit(sep, 1)[0] for a one-codepoint separator: everything
before the last occurrence of sep, or s itself when sep does not occur. -/
def pyRsplitHead (s : PyStr) (sep : Nat) : PyStr :=
  match s.reverse.span (· ≠ sep) with
  | (_, []) => s
  | (_, _ :: preRev) => preRev.reverse

/-- Does sub occur in s at index i (with the whole of sub inside s)? -/
def occursAt (s sub : PyStr) (i : Nat) : Prop :=
  i + sub.length ≤ s.length ∧ sub.isPrefixOf (s.drop i)

instance (s sub : PyStr) (i : Nat) : Decidable (occursAt s sub i) := by
  unfold occursAt; infer_instance

/-- Scanning kernel for pyFind: try indices i, i+1, ..., i+steps-1. -/
def pyFindAux (s sub : PyStr) : Nat → Nat → Option Nat
  | _, 0 => none
  | i, steps + 1 =>
      if occursAt s sub i then some i else pyFindAux s sub (i + 1) steps

/-- Python str.find(sub, start): least index at or after start where sub
occurs, with none standing for the -1 return value. -/
def pyFind (s sub : PyStr) (start : Nat) : Option Nat :=
  pyFindAux s sub start (s.length + 1 - start)

/-- Python str.replace(pat, rep, 1): replace the first occurrence only. -/
def pyReplaceFirst (s pat rep : PyStr) : PyStr :=
  match pyFind s pat 0 with
  | none => s
  | some i => s.take i ++ rep ++ s.drop (i + pat.length)

/-- Python sep.join(lines) for a one-codepoint separator. -/
def pyJoin (sep : Nat) : List PyStr → PyStr
  | [] => []
  | [l] => l
  | l :: rest => l ++ sep :: pyJoin sep rest

/-! ## Basic lemmas about the string primitives -/

theorem pyFindAux_eq_none (s sub : PyStr) (i steps : Nat)
    (h : ∀ j, i ≤ j → j < i + steps → ¬ occursAt s sub j) :
    pyFindAux s sub i steps = none := by
  induction steps generalizing i with
  | zero => rfl
  | succ n ih =>
      rw [pyFindAux]
      rw [if_neg (h i le_rfl (by omega))]
      exact ih (i + 1) (fun j hj1 hj2 => h j (by omega) (by omega))

theorem pyFindAux_eq_some (s sub : PyStr) (i steps p : Nat)
    (hip : i ≤ p) (hps : p < i + steps) (hp : occursAt s sub p)
    (hmin : ∀ j, i ≤ j → j < p → ¬ occursAt s sub j) :
    pyFindAux s sub i steps = some p := by
  induction steps generalizing i with
  | zero => omega
  | succ n ih =>
      rw [pyFindAux]
      by_cases hi : occursAt s sub i
      · have : i = p := by
          by_contra hne
          exact hmin i le_rfl (by omega) hi
        rw [if_pos hi, this]
      · rw [if_neg hi]
        have hip' : i + 1 ≤ p := by
          rcases Nat.eq_or_lt_of_le hip with h | h
          · exact absurd (h ▸ hp) hi
          · omega
        exact ih (i + 1) hip' (by omega)
          (fun j hj1 hj2 => hmin j (by omega) hj2)

theorem occursAt_le_length (s sub : PyStr) (p : Nat) (h : occursAt s sub p) :
    p ≤ s.length := by
  have := h.1; omega

theorem pyFind_eq_none (s sub : PyStr) (start : Nat)
    (h : ∀ j, start ≤ j → ¬ occursAt s sub j) :
    pyFind s sub start = none := by
  unfold pyFind
  exact pyFindAux_eq_none s sub start _ (fun j hj _ => h j hj)

theorem pyFind_eq_some (s sub : PyStr) (start p : Nat)
    (hip : start ≤ p) (hp : occursAt s sub p)
    (hmin : ∀ j, start ≤ j → j < p → ¬ occursAt s sub j) :
    pyFind s sub start = some p := by
  unfold pyFind
  have hpl : p ≤ s.length := occursAt_le_length s sub p hp
  exact pyFindAux_eq_some s sub start _ p hip (by omega) hp hmin

/-- A one-codepoint pattern occurs at i exactly when the element at i is it. -/
theorem occursAt_singleton (s : PyStr) (c : Nat) (i : Nat) :
    occursAt s [c] i ↔ (s.drop i).head? = some c := by
  unfold occursAt
  cases hd : s.drop i with
  | nil =>
      have h1 := List.length_drop i s
      rw [hd] at h1
      simp only [List.length_nil] at h1
      simp only [List.isPrefixOf_iff_prefix, List.head?_nil]
      constructor
      · rintro ⟨h2, h3⟩
        simp only [List.length_cons, List.length_nil] at h2
        omega
      · intro h; cases h
  | cons a rest =>
      have h1 := List.length_drop i s
      rw [hd] at h1
      simp only [List.length_cons] at h1
      have hpc : ([c] <+: a :: rest) ↔ (c = a ∧ [] <+: rest) := List.cons_prefix_cons
      simp only [List.isPrefixOf_iff_prefix, List.head?_cons, Option.some.injEq,
        List.length_cons, List.length_nil, hpc]
      constructor
      · rintro ⟨_, h3, _⟩
        exact h3.symm
      · intro h
        subst h
        exact ⟨by omega, rfl, List.nil_prefix⟩

/-! ## Warning stripping (GimpScriptRunner.py lines 112-138)

strip_gimp_warnings scans for repetitions of the marker framed by a blank
line, then cuts everything up to and including the line that starts the last
repetition.  Raising GimpException is modelled as Except.error carrying the
message. -/

/-- The marker that starts a recognized bracketed warning block. -/
def gimpMarker : PyStr := strLit "\n(gimp:"

/-- The repetition pattern searched for in the loop (blank-line framing). -/
def gimpMarkerFramed : PyStr := strLit "\n\n(gimp:"

/-- The while loop of strip_gimp_warnings: repeatedly advance pos to the next
occurrence of the framed marker, returning the last position found (last_pos).
The Python loop terminates because find only moves forward; fuel is an upper
bound on the number of iterations, one plus the string length at call sites. -/
def stripLoop (s : PyStr) : Nat → Nat → Nat
  | 0, pos => pos
  | fuel + 1, pos =>
      match pyFind s gimpMarkerFramed (pos + gimpMarkerFramed.length) with
      | none => pos
      | some p => stripLoop s fuel p

/-- GimpScriptRunner.strip_gimp_warnings.  The source mutates input and
returns it; raising GimpException is an error result. -/
def strip_gimp_warnings (input : PyStr) : Except PyStr PyStr :=
  if gimpMarker.isPrefixOf input then
    let lastPos := stripLoop input (input.length + 1) 0
    match pyFind input [10] (lastPos + gimpMarkerFramed.length) with
    | none => .error (strLit "Could not find start of output after gimp warnings.")
    | some outputStart => .ok (input.drop (outputStart + 1))
  else
    .ok input

/-- The backwards scan of strip_initialization_warnings: the Python loop
walks i from the end to the front and stops at the first line starting with
*WARNING*, setting strip_idx = i + 1 (0 when there is none).  Recursively:
a hit anywhere in the tail wins over the head. -/
def warningStripIdx : List PyStr → Nat
  | [] => 0
  | l :: rest =>
      let r := warningStripIdx rest
      if r ≠ 0 then r + 1
      else if (strLit "*WARNING*").isPrefixOf l then 1 else 0

/-- GimpScriptRunner.strip_initialization_warnings.  The source scans the
lines backwards for the last one starting with *WARNING* and keeps what
follows it; a sole empty string collapses to the empty list. -/
def strip_initialization_warnings (errorLines : List PyStr) : List PyStr :=
  let rest := errorLines.drop (warningStripIdx errorLines)
  if rest = [strLit ""] then [] else rest

theorem warningStripIdx_of_no_marker (lines : List PyStr)
    (h : ∀ l ∈ lines, ¬ (strLit "*WARNING*").isPrefixOf l) :
    warningStripIdx lines = 0 := by
  induction lines with
  | nil => rfl
  | cons l rest ih =>
      have h1 : warningStripIdx rest = 0 :=
        ih (fun x hx => h x (List.mem_cons_of_mem l hx))
      have h2 : ¬ (strLit "*WARNING*").isPrefixOf l :=
        fun hw => h l (List.mem_cons_self l rest) hw
      simp [warningStripIdx, h1, h2]

theorem warningStripIdx_of_last_marker (xs : List PyStr) (w : PyStr) (ys : List PyStr)
    (hw : (strLit "*WARNING*").isPrefixOf w)
    (hys : ∀ l ∈ ys, ¬ (strLit "*WARNING*").isPrefixOf l) :
    warningStripIdx (xs ++ w :: ys) = xs.length + 1 := by
  induction xs with
  | nil =>
      simp only [List.nil_append, warningStripIdx,
        warningStripIdx_of_no_marker ys hys, List.length_nil]
      simp [hw]
  | cons x xs ih =>
      rw [List.cons_append]
      simp only [warningStripIdx]
      rw [ih]
      simp

/-- Characterization of strip_initialization_warnings when a marker line is
present: everything through the last marker line is discarded, and a sole
surviving empty string becomes the empty list. -/
theorem strip_initialization_warnings_marker (xs : List PyStr) (w : PyStr) (ys : List PyStr)
    (hw : (strLit "*WARNING*").isPrefixOf w)
    (hys : ∀ l ∈ ys, ¬ (strLit "*WARNING*").isPrefixOf l) :
    strip_initialization_warnings (xs ++ w :: ys)
      = if ys = [strLit ""] then [] else ys := by
  unfold strip_initialization_warnings
  rw [warningStripIdx_of_last_marker xs w ys hw hys]
  have hdrop : (xs ++ w :: ys).drop (xs.length + 1) = ys := by
    have : xs ++ w :: ys = (xs ++ [w]) ++ ys := by simp
    rw [this]
    have hlen : xs.length + 1 = (xs ++ [w]).length := by simp
    rw [hlen, List.drop_left]
  rw [hdrop]

/-- Characterization with no marker line: the input is kept, up to the
empty-string collapse. -/
theorem strip_initialization_warnings_no_marker (lines : List PyStr)
    (h : ∀ l ∈ lines, ¬ (strLit "*WARNING*").isPrefixOf l) :
    strip_initialization_warnings lines = if lines = [strLit ""] then [] else lines := by
  unfold strip_initialization_warnings
  rw [warningStripIdx_of_no_marker lines h, List.drop_zero]

/-! ## The recognized warning block and its stripping

A recognized bracketed warning block is one warning line:
newline, the marker "(gimp:", warning text without newline, final newline.
Concatenating N such blocks yields exactly the blank-line framing
"\n\n(gimp:" between consecutive repetitions that the loop searches for. -/

/-- One recognized bracketed warning block with warning text w. -/
def warnBlock (w : PyStr) : PyStr := gimpMarker ++ w ++ [10]

/-- N repetitions of the block. -/
def warnBlocks (w : PyStr) : Nat → PyStr
  | 0 => []
  | n + 1 => warnBlock w ++ warnBlocks w n

theorem gimpMarker_eq : gimpMarker = [10, 40, 103, 105, 109, 112, 58] := by decide

theorem gimpMarkerFramed_eq : gimpMarkerFramed = 10 :: gimpMarker := by decide

theorem gimpMarkerFramed_length : gimpMarkerFramed.length = 8 := by decide

theorem warnBlock_length (w : PyStr) : (warnBlock w).length = w.length + 8 := by
  simp [warnBlock, gimpMarker_eq]

theorem warnBlocks_length (w : PyStr) (N : Nat) :
    (warnBlocks w N).length = N * (w.length + 8) := by
  induction N with
  | zero => simp [warnBlocks]
  | succ n ih =>
      simp only [warnBlocks, List.length_append, ih, warnBlock_length]
      ring

theorem warnBlocks_add (w : PyStr) (a b : Nat) :
    warnBlocks w (a + b) = warnBlocks w a ++ warnBlocks w b := by
  induction a with
  | zero => simp [warnBlocks]
  | succ n ih =>
      have : n + 1 + b = (n + b) + 1 := by omega
      rw [this, warnBlocks, ih, warnBlocks, List.append_assoc]

theorem head?_drop (l : List Nat) (n : Nat) : (l.drop n).head? = l.get? n := by
  induction l generalizing n with
  | nil => simp
  | cons a r ih =>
      cases n with
      | zero => simp
      | succ m => simpa using ih m

theorem occursAt_head (s : PyStr) (c : Nat) (rest : PyStr) (i : Nat)
    (h : occursAt s (c :: rest) i) : s.get? i = some c := by
  have h2 := h.2
  rw [List.isPrefixOf_iff_prefix] at h2
  rcases h2 with ⟨t, ht⟩
  rw [← head?_drop, ← ht]
  rfl

theorem warnBlock_get_last (w : PyStr) :
    (warnBlock w).get? (w.length + 7) = some 10 := by
  have h : warnBlock w = (gimpMarker ++ w) ++ [10] := by
    simp [warnBlock]
  rw [h]
  have hlen : (gimpMarker ++ w).length = w.length + 7 := by
    simp [gimpMarker_eq]
  rw [List.get?_append_right (by omega), hlen]
  simp

theorem warnBlock_get_w (w : PyStr) (m : Nat) (hm : m < w.length) :
    (warnBlock w).get? (7 + m) = w.get? m := by
  have h : warnBlock w = gimpMarker ++ (w ++ [10]) := by
    simp [warnBlock]
  rw [h]
  have hlen : gimpMarker.length = 7 := by decide
  rw [List.get?_append_right (by omega), hlen]
  have : 7 + m - 7 = m := by omega
  rw [this, List.get?_append hm]

/-- Element access inside the block region is periodic with period the block
length. -/
theorem warnBlocks_get (w payload : PyStr) (N i : Nat)
    (hi : i < N * (w.length + 8)) :
    (warnBlocks w N ++ payload).get? i = (warnBlock w).get? (i % (w.length + 8)) := by
  induction N generalizing i with
  | zero => omega
  | succ n ih =>
      have hexp : (n + 1) * (w.length + 8) = n * (w.length + 8) + (w.length + 8) := by
        ring
      rw [warnBlocks, List.append_assoc]
      by_cases hiL : i < w.length + 8
      · rw [List.get?_append (by rw [warnBlock_length]; omega)]
        rw [Nat.mod_eq_of_lt hiL]
      · rw [List.get?_append_right (by rw [warnBlock_length]; omega)]
        rw [warnBlock_length]
        have hrec := ih (i - (w.length + 8)) (by omega)
        rw [hrec]
        have hmod : i % (w.length + 8) = (i - (w.length + 8)) % (w.length + 8) := by
          have hsplit : i = (i - (w.length + 8)) + (w.length + 8) := by omega
          conv_lhs => rw [hsplit]
          rw [Nat.add_mod_right]
        rw [hmod]

/-- Inside the warning-text region of any block there is no newline. -/
theorem warnBlocks_noTen (w payload : PyStr) (N j i : Nat)
    (hw : 10 ∉ w) (hjN : j < N)
    (h1 : j * (w.length + 8) + 7 ≤ i)
    (h2 : i < (j + 1) * (w.length + 8) - 1) :
    (warnBlocks w N ++ payload).get? i ≠ some 10 := by
  have hL : 0 < w.length + 8 := by omega
  have hiN : i < N * (w.length + 8) := by
    have : (j + 1) * (w.length + 8) ≤ N * (w.length + 8) :=
      Nat.mul_le_mul_right _ (by omega)
    omega
  rw [warnBlocks_get w payload N i hiN]
  have hr7 : j * (w.length + 8) + 7 ≤ i ∧ i ≤ j * (w.length + 8) + w.length + 6 := by
    constructor
    · exact h1
    · have : (j + 1) * (w.length + 8) = j * (w.length + 8) + w.length + 8 := by ring
      omega
  have hmod : i % (w.length + 8) = i - j * (w.length + 8) := by
    have hsplit : i = (i - j * (w.length + 8)) + j * (w.length + 8) := by omega
    conv_lhs => rw [hsplit]
    rw [Nat.add_mul_mod_self_right]
    exact Nat.mod_eq_of_lt (by omega)
  set r := i - j * (w.length + 8) with hr
  have hr1 : 7 ≤ r := by omega
  have hr2 : r ≤ w.length + 6 := by omega
  rw [hmod]
  have hget := warnBlock_get_w w (r - 7) (by omega)
  have : 7 + (r - 7) = r := by omega
  rw [this] at hget
  rw [hget]
  intro hcontra
  exact hw (List.get?_mem hcontra)

/-- Dropping up to the newline that ends block j'+1 leaves that newline, the
remaining blocks and the payload. -/
theorem warnBlocks_drop_boundary (w p : PyStr) (j' M : Nat) :
    (warnBlocks w (j' + 1 + M) ++ p).drop ((j' + 1) * (w.length + 8) - 1)
      = 10 :: (warnBlocks w M ++ p) := by
  have hidx : j' + 1 + M = j' + (M + 1) := by omega
  rw [hidx, warnBlocks_add w j' (M + 1), warnBlocks]
  have hassoc : (warnBlocks w j' ++ (warnBlock w ++ warnBlocks w M)) ++ p
      = warnBlocks w j' ++ (warnBlock w ++ (warnBlocks w M ++ p)) := by
    simp [List.append_assoc]
  rw [hassoc]
  have hexp : (j' + 1) * (w.length + 8) = j' * (w.length + 8) + (w.length + 8) := by
    ring
  have heq : (j' + 1) * (w.length + 8) - 1 = (warnBlocks w j').length + (w.length + 7) := by
    rw [warnBlocks_length]
    omega
  rw [heq, List.drop_append]
  have hb : warnBlock w ++ (warnBlocks w M ++ p)
      = (gimpMarker ++ w) ++ ([10] ++ (warnBlocks w M ++ p)) := by
    simp [warnBlock]
  rw [hb]
  have heq2 : w.length + 7 = (gimpMarker ++ w).length + 0 := by
    simp [gimpMarker_eq]
  rw [heq2, List.drop_append]
  simp

/-- The framed marker occurs at each boundary between two blocks. -/
theorem occursAt_boundary (w p : PyStr) (j' M : Nat) (hM : 1 ≤ M) :
    occursAt (warnBlocks w (j' + 1 + M) ++ p) gimpMarkerFramed
      ((j' + 1) * (w.length + 8) - 1) := by
  have hexp : (j' + 1 + M) * (w.length + 8)
      = (j' + 1) * (w.length + 8) + M * (w.length + 8) := by ring
  have hM8 : w.length + 8 ≤ M * (w.length + 8) := by
    calc w.length + 8 = 1 * (w.length + 8) := by ring
    _ ≤ M * (w.length + 8) := Nat.mul_le_mul_right _ hM
  constructor
  · rw [List.length_append, warnBlocks_length, gimpMarkerFramed_length]
    omega
  · rw [List.isPrefixOf_iff_prefix, warnBlocks_drop_boundary w p j' M,
      gimpMarkerFramed_eq]
    rw [List.cons_prefix_cons]
    refine ⟨rfl, ?_⟩
    obtain ⟨M', rfl⟩ : ∃ M', M = M' + 1 := ⟨M - 1, by omega⟩
    rw [warnBlocks]
    have : (warnBlock w ++ warnBlocks w M') ++ p
        = gimpMarker ++ ((w ++ [10]) ++ (warnBlocks w M' ++ p)) := by
      simp [warnBlock]
    rw [this]
    exact List.prefix_append _ _

/-- Occurrences past all the blocks are occurrences in the payload. -/
theorem occursAt_past_blocks (w p : PyStr) (N i : Nat)
    (hi : N * (w.length + 8) ≤ i)
    (h : occursAt (warnBlocks w N ++ p) gimpMarkerFramed i) :
    occursAt p gimpMarkerFramed (i - N * (w.length + 8)) := by
  rcases h with ⟨h1, h2⟩
  rw [List.length_append, warnBlocks_length, gimpMarkerFramed_length] at h1
  have hdrop : (warnBlocks w N ++ p).drop i = p.drop (i - N * (w.length + 8)) := by
    have heq : i = (warnBlocks w N).length + (i - N * (w.length + 8)) := by
      rw [warnBlocks_length]; omega
    conv_lhs => rw [heq]
    rw [List.drop_append]
  rw [hdrop] at h2
  exact ⟨by rw [gimpMarkerFramed_length]; omega, h2⟩

/-- No occurrence of the framed marker at the very end of the blocks when the
payload does not itself begin with the bare marker. -/
theorem noOcc_end (w p : PyStr) (N : Nat)
    (hp1 : ¬ gimpMarker.isPrefixOf p) :
    ¬ occursAt (warnBlocks w (N + 1) ++ p) gimpMarkerFramed
        ((N + 1) * (w.length + 8) - 1) := by
  rintro ⟨h1, h2⟩
  have hdrop := warnBlocks_drop_boundary w p N 0
  have h0 : N + 1 + 0 = N + 1 := by omega
  rw [h0] at hdrop
  rw [hdrop] at h2
  simp only [warnBlocks, List.nil_append] at h2
  rw [List.isPrefixOf_iff_prefix, gimpMarkerFramed_eq, List.cons_prefix_cons] at h2
  exact hp1 (List.isPrefixOf_iff_prefix.mpr h2.2)

/-- Past the start of the last block there is no further occurrence of the
framed marker. -/
theorem noOccTail (w p : PyStr) (N : Nat) (hN : 1 ≤ N) (hw2 : 10 ∉ w)
    (hp1 : ¬ gimpMarker.isPrefixOf p)
    (hp2 : ∀ i, ¬ occursAt p gimpMarkerFramed i) :
    ∀ i, (N - 1) * (w.length + 8) + 7 ≤ i →
      ¬ occursAt (warnBlocks w N ++ p) gimpMarkerFramed i := by
  intro i hi hocc
  have hexp : N * (w.length + 8) = (N - 1) * (w.length + 8) + (w.length + 8) := by
    obtain ⟨N', rfl⟩ : ∃ N', N = N' + 1 := ⟨N - 1, by omega⟩
    simp
    ring
  have hN1 : N - 1 + 1 = N := by omega
  by_cases hcase1 : i < N * (w.length + 8) - 1
  · have hten := warnBlocks_noTen w p N (N - 1) i hw2 (by omega) hi
      (by rw [hN1]; omega)
    have hhead : (warnBlocks w N ++ p).get? i = some 10 := by
      have h10 : gimpMarkerFramed = 10 :: gimpMarker := gimpMarkerFramed_eq
      rw [h10] at hocc
      exact occursAt_head _ 10 gimpMarker i hocc
    exact hten hhead
  by_cases hcase2 : i = N * (w.length + 8) - 1
  · obtain ⟨N', rfl⟩ : ∃ N', N = N' + 1 := ⟨N - 1, by omega⟩
    rw [hcase2] at hocc
    exact noOcc_end w p N' hp1 hocc
  · have hge : N * (w.length + 8) ≤ i := by omega
    exact hp2 _ (occursAt_past_blocks w p N i hge hocc)

theorem noOcc_of_noTen (s : PyStr) (i : Nat) (h : s.get? i ≠ some 10) :
    ¬ occursAt s gimpMarkerFramed i := by
  intro hocc
  rw [gimpMarkerFramed_eq] at hocc
  exact h (occursAt_head s 10 gimpMarker i hocc)

/-- The first search of the loop, from index 8, finds the first boundary when
at least two blocks are present. -/
theorem find_first (w p : PyStr) (N : Nat) (hN : 2 ≤ N)
    (hw1 : 1 ≤ w.length) (hw2 : 10 ∉ w) :
    pyFind (warnBlocks w N ++ p) gimpMarkerFramed 8 = some (w.length + 7) := by
  have hocc := occursAt_boundary w p 0 (N - 1) (by omega)
  have hcount : 0 + 1 + (N - 1) = N := by omega
  rw [hcount] at hocc
  have hq : (0 + 1) * (w.length + 8) - 1 = w.length + 7 := by omega
  rw [hq] at hocc
  refine pyFind_eq_some _ _ _ _ (by omega) hocc ?_
  intro j hj1 hj2
  refine noOcc_of_noTen _ _ ?_
  exact warnBlocks_noTen w p N 0 j hw2 (by omega) (by omega) (by omega)

/-- Each later search of the loop finds the next boundary while one exists. -/
theorem find_next (w p : PyStr) (N j : Nat) (hj1 : 1 ≤ j) (hj2 : j ≤ N - 2)
    (hw2 : 10 ∉ w) :
    pyFind (warnBlocks w N ++ p) gimpMarkerFramed (j * (w.length + 8) - 1 + 8)
      = some ((j + 1) * (w.length + 8) - 1) := by
  have hjexp : j * (w.length + 8) = (j - 1) * (w.length + 8) + (w.length + 8) := by
    obtain ⟨j', rfl⟩ : ∃ j', j = j' + 1 := ⟨j - 1, by omega⟩
    simp; ring
  have hj1exp : (j + 1) * (w.length + 8) = j * (w.length + 8) + (w.length + 8) := by
    ring
  have hocc := occursAt_boundary w p j (N - (j + 1)) (by omega)
  have hcount : j + 1 + (N - (j + 1)) = N := by omega
  rw [hcount] at hocc
  refine pyFind_eq_some _ _ _ _ (by omega) hocc ?_
  intro i hi1 hi2
  refine noOcc_of_noTen _ _ ?_
  exact warnBlocks_noTen w p N j i hw2 (by omega) (by omega) (by omega)

/-- Once positioned at the last boundary, the loop search finds nothing. -/
theorem find_after_last (w p : PyStr) (N : Nat) (hN : 2 ≤ N) (hw2 : 10 ∉ w)
    (hp1 : ¬ gimpMarker.isPrefixOf p)
    (hp2 : ∀ i, ¬ occursAt p gimpMarkerFramed i) :
    pyFind (warnBlocks w N ++ p) gimpMarkerFramed
      ((N - 1) * (w.length + 8) - 1 + 8) = none := by
  refine pyFind_eq_none _ _ _ ?_
  intro i hi
  generalize hb : (N - 1) * (w.length + 8) = b at hi ⊢
  have hi2 : b + 7 ≤ i := by omega
  rw [← hb] at hi2
  exact noOccTail w p N (by omega) hw2 hp1 hp2 i hi2

/-- With a single block the loop search finds nothing at all. -/
theorem find_none_single (w p : PyStr) (N : Nat) (hN : 1 ≤ N) (hNs : N ≤ 1)
    (hw2 : 10 ∉ w)
    (hp1 : ¬ gimpMarker.isPrefixOf p)
    (hp2 : ∀ i, ¬ occursAt p gimpMarkerFramed i) :
    pyFind (warnBlocks w N ++ p) gimpMarkerFramed 8 = none := by
  refine pyFind_eq_none _ _ _ ?_
  intro i hi
  have h0 : N - 1 = 0 := by omega
  refine noOccTail w p N hN hw2 hp1 hp2 i ?_
  rw [h0, Nat.zero_mul]
  omega

theorem stripLoop_stop (s : PyStr) (fuel pos : Nat)
    (h : pyFind s gimpMarkerFramed (pos + 8) = none) :
    stripLoop s (fuel + 1) pos = pos := by
  rw [stripLoop, gimpMarkerFramed_length, h]

theorem stripLoop_step (s : PyStr) (fuel pos q : Nat)
    (h : pyFind s gimpMarkerFramed (pos + 8) = some q) :
    stripLoop s (fuel + 1) pos = stripLoop s fuel q := by
  rw [stripLoop, gimpMarkerFramed_length, h]

/-- Chaining the loop from boundary k to the last boundary. -/
theorem stripLoop_chain (w p : PyStr) (N : Nat) (hN : 2 ≤ N) (hw2 : 10 ∉ w)
    (hp1 : ¬ gimpMarker.isPrefixOf p)
    (hp2 : ∀ i, ¬ occursAt p gimpMarkerFramed i) :
    ∀ fuel k, 1 ≤ k → k ≤ N - 1 → N - 1 - k < fuel →
      stripLoop (warnBlocks w N ++ p) fuel (k * (w.length + 8) - 1)
        = (N - 1) * (w.length + 8) - 1 := by
  intro fuel
  induction fuel with
  | zero => omega
  | succ f ih =>
      intro k hk1 hk2 hkf
      by_cases hklast : k = N - 1
      · subst hklast
        rw [stripLoop_stop]
        have hstart : (N - 1) * (w.length + 8) - 1 + 8
            = (N - 1) * (w.length + 8) - 1 + 8 := rfl
        exact find_after_last w p N hN hw2 hp1 hp2
      · rw [stripLoop_step _ f _ _ (find_next w p N k hk1 (by omega) hw2)]
        exact ih (k + 1) (by omega) (by omega) (by omega)

/-- The value computed by the loop of strip_gimp_warnings on N blocks
followed by a normal payload. -/
theorem stripLoop_main (w p : PyStr) (N : Nat) (hN : 1 ≤ N)
    (hw1 : 1 ≤ w.length) (hw2 : 10 ∉ w)
    (hp1 : ¬ gimpMarker.isPrefixOf p)
    (hp2 : ∀ i, ¬ occursAt p gimpMarkerFramed i) :
    stripLoop (warnBlocks w N ++ p) ((warnBlocks w N ++ p).length + 1) 0
      = if N = 1 then 0 else (N - 1) * (w.length + 8) - 1 := by
  have hlen : (warnBlocks w N ++ p).length = N * (w.length + 8) + p.length := by
    rw [List.length_append, warnBlocks_length]
  have hNL : N ≤ N * (w.length + 8) := by
    calc N = N * 1 := by ring
    _ ≤ N * (w.length + 8) := Nat.mul_le_mul_left _ (by omega)
  by_cases hN1 : N = 1
  · subst hN1
    rw [if_pos rfl]
    obtain ⟨f, hf⟩ : ∃ f, (warnBlocks w 1 ++ p).length + 1 = f + 1 :=
      ⟨(warnBlocks w 1 ++ p).length, rfl⟩
    rw [hf]
    exact stripLoop_stop _ _ _ (find_none_single w p 1 le_rfl le_rfl hw2 hp1 hp2)
  · rw [if_neg hN1]
    have hN2 : 2 ≤ N := by omega
    obtain ⟨f, hf⟩ : ∃ f, (warnBlocks w N ++ p).length + 1 = f + 1 :=
      ⟨(warnBlocks w N ++ p).length, rfl⟩
    rw [hf]
    have hfirst : pyFind (warnBlocks w N ++ p) gimpMarkerFramed (0 + 8)
        = some (1 * (w.length + 8) - 1) := by
      have h := find_first w p N hN2 hw1 hw2
      have h1 : 1 * (w.length + 8) - 1 = w.length + 7 := by omega
      rw [h1]
      simpa using h
    rw [stripLoop_step _ f _ _ hfirst]
    refine stripLoop_chain w p N hN2 hw2 hp1 hp2 f 1 le_rfl (by omega) ?_
    have : (warnBlocks w N ++ p).length + 1 = f + 1 := hf
    omega

/-- After the loop, the search for the next newline lands on the newline that
ends the last block. -/
theorem find_newline_single (w p : PyStr) (hw1 : 1 ≤ w.length) (hw2 : 10 ∉ w) :
    pyFind (warnBlocks w 1 ++ p) [10] (0 + 8) = some (w.length + 7) := by
  have hocc : occursAt (warnBlocks w 1 ++ p) [10] (w.length + 7) := by
    rw [occursAt_singleton]
    have hdrop := warnBlocks_drop_boundary w p 0 0
    have hq : (0 + 1) * (w.length + 8) - 1 = w.length + 7 := by omega
    rw [hq] at hdrop
    simp only [Nat.zero_add] at hdrop
    rw [hdrop]
    rfl
  refine pyFind_eq_some _ _ _ _ (by omega) hocc ?_
  intro j hj1 hj2
  rw [occursAt_singleton, head?_drop]
  intro hcontra
  exact warnBlocks_noTen w p 1 0 j hw2 (by omega) (by omega) (by omega) hcontra

theorem find_newline_multi (w p : PyStr) (N : Nat) (hN : 2 ≤ N)
    (hw1 : 1 ≤ w.length) (hw2 : 10 ∉ w) :
    pyFind (warnBlocks w N ++ p) [10] ((N - 1) * (w.length + 8) - 1 + 8)
      = some (N * (w.length + 8) - 1) := by
  have hexp : N * (w.length + 8) = (N - 1) * (w.length + 8) + (w.length + 8) := by
    obtain ⟨N', rfl⟩ : ∃ N', N = N' + 2 := ⟨N - 2, by omega⟩
    have h1 : N' + 2 - 1 = N' + 1 := by omega
    rw [h1]
    ring
  have hpos : 1 ≤ (N - 1) * (w.length + 8) := by
    calc 1 ≤ 1 * (w.length + 8) := by omega
    _ ≤ (N - 1) * (w.length + 8) := Nat.mul_le_mul_right _ (by omega)
  have hocc : occursAt (warnBlocks w N ++ p) [10] (N * (w.length + 8) - 1) := by
    rw [occursAt_singleton]
    have hNsub : N - 1 + 1 = N := by omega
    have hdrop := warnBlocks_drop_boundary w p (N - 1) 0
    rw [hNsub] at hdrop
    rw [hdrop]
    rfl
  refine pyFind_eq_some _ _ _ _ (by omega) hocc ?_
  intro j hj1 hj2
  rw [occursAt_singleton, head?_drop]
  intro hcontra
  refine warnBlocks_noTen w p N (N - 1) j hw2 (by omega) (by omega) ?_ hcontra
  have : N - 1 + 1 = N := by omega
  rw [this]
  omega

/-- strip_gimp_warnings removes any positive number of repetitions of the
recognized warning block and returns the payload unchanged, provided the
payload does not look like a warning continuation: it does not itself start
with the bare marker and does not contain the framed marker. -/
theorem strip_gimp_warnings_blocks (w p : PyStr) (N : Nat) (hN : 1 ≤ N)
    (hw1 : 1 ≤ w.length) (hw2 : 10 ∉ w)
    (hp1 : ¬ gimpMarker.isPrefixOf p)
    (hp2 : ∀ i, ¬ occursAt p gimpMarkerFramed i) :
    strip_gimp_warnings (warnBlocks w N ++ p) = .ok p := by
  have hpre : gimpMarker.isPrefixOf (warnBlocks w N ++ p) = true := by
    obtain ⟨N', rfl⟩ : ∃ N', N = N' + 1 := ⟨N - 1, by omega⟩
    rw [List.isPrefixOf_iff_prefix, warnBlocks]
    have : (warnBlock w ++ warnBlocks w N') ++ p
        = gimpMarker ++ ((w ++ [10]) ++ (warnBlocks w N' ++ p)) := by
      simp [warnBlock]
    rw [this]
    exact List.prefix_append _ _
  unfold strip_gimp_warnings
  rw [if_pos hpre]
  simp only [gimpMarkerFramed_length]
  rw [stripLoop_main w p N hN hw1 hw2 hp1 hp2]
  by_cases hN1 : N = 1
  · subst hN1
    rw [if_pos rfl]
    rw [find_newline_single w p hw1 hw2]
    have hdl : (warnBlocks w 1 ++ p).drop (w.length + 7 + 1) = p := by
      have hlen : w.length + 7 + 1 = (warnBlocks w 1).length := by
        rw [warnBlocks_length]; omega
      rw [hlen, List.drop_left]
    show Except.ok ((warnBlocks w 1 ++ p).drop (w.length + 7 + 1)) = Except.ok p
    rw [hdl]
  · rw [if_neg hN1]
    rw [find_newline_multi w p N (by omega) hw1 hw2]
    have hNL : 1 ≤ N * (w.length + 8) := by
      calc 1 ≤ 1 * (w.length + 8) := by omega
      _ ≤ N * (w.length + 8) := Nat.mul_le_mul_right _ (by omega)
    have hdl : (warnBlocks w N ++ p).drop (N * (w.length + 8) - 1 + 1) = p := by
      have hlen : N * (w.length + 8) - 1 + 1 = (warnBlocks w N).length := by
        rw [warnBlocks_length]; omega
      rw [hlen, List.drop_left]
    show Except.ok ((warnBlocks w N ++ p).drop (N * (w.length + 8) - 1 + 1))
      = Except.ok p
    rw [hdl]

/-- Without the leading marker nothing is stripped. -/
theorem strip_gimp_warnings_no_marker (s : PyStr)
    (h : ¬ gimpMarker.isPrefixOf s) :
    strip_gimp_warnings s = .ok s := by
  unfold strip_gimp_warnings
  rw [if_neg (by simpa using h)]

/-- When the input starts with the marker but no newline exists at or after
the scan position left by the loop, strip_gimp_warnings raises. -/
theorem strip_gimp_warnings_raises (s : PyStr)
    (h1 : gimpMarker.isPrefixOf s)
    (h2 : ∀ c ∈ s.drop (stripLoop s (s.length + 1) 0 + 8), c ≠ 10) :
    strip_gimp_warnings s
      = .error (strLit "Could not find start of output after gimp warnings.") := by
  have hfind : pyFind s [10] (stripLoop s (s.length + 1) 0 + 8) = none := by
    refine pyFind_eq_none _ _ _ ?_
    intro j hj hocc
    rw [occursAt_singleton, head?_drop] at hocc
    have hj2 : s.get? j = (s.drop (stripLoop s (s.length + 1) 0 + 8)).get?
        (j - (stripLoop s (s.length + 1) 0 + 8)) := by
      rw [List.get?_drop]
      congr 1
      omega
    rw [hj2] at hocc
    exact h2 10 (List.get?_mem hocc) rfl
  unfold strip_gimp_warnings
  rw [if_pos h1]
  simp only [gimpMarkerFramed_length]
  rw [hfind]

/-! ## Byte-level codecs

latin-1 maps byte k to codepoint k for every k in 0..255, which is exactly
why the runner uses it on binary stdout: decoding then re-encoding is the
identity on byte values.  bytes.decode() with no argument is UTF-8. -/

/-- A byte string: byte values, each below 256. -/
abbrev PyBytes := List Nat

/-- bytes.decode('latin1'): byte k becomes codepoint k; never fails. -/
def latin1Decode (bs : PyBytes) : PyStr := bs

/-- str.encode('latin1'): codepoint k becomes byte k, failing above 255. -/
def latin1Encode (s : PyStr) : Except Unit PyBytes :=
  if s.all (fun c => c < 256) then .ok s else .error ()

theorem latin1_roundtrip (bs : PyBytes) (h : ∀ b ∈ bs, b < 256) :
    latin1Encode (latin1Decode bs) = .ok bs := by
  unfold latin1Encode latin1Decode
  rw [if_pos]
  rw [List.all_eq_true]
  intro x hx
  exact decide_eq_true (h x hx)

/-- Decode one UTF-8 scalar with leading byte b, with the validity checks
CPython makes (continuation bytes, overlong forms, surrogates, range).
Returns the codepoint and the unconsumed bytes. -/
def utf8Step (b : Nat) (rest : List Nat) : Except Unit (Nat × List Nat) :=
  if b < 128 then .ok (b, rest)
  else if 194 ≤ b ∧ b ≤ 223 then
    match rest with
    | c1 :: rest1 =>
        if 128 ≤ c1 ∧ c1 ≤ 191 then .ok ((b - 192) * 64 + (c1 - 128), rest1)
        else .error ()
    | [] => .error ()
  else if 224 ≤ b ∧ b ≤ 239 then
    match rest with
    | c1 :: c2 :: rest2 =>
        if 128 ≤ c1 ∧ c1 ≤ 191 ∧ 128 ≤ c2 ∧ c2 ≤ 191 then
          let cp := (b - 224) * 4096 + (c1 - 128) * 64 + (c2 - 128)
          if cp < 2048 ∨ (55296 ≤ cp ∧ cp ≤ 57343) then .error ()
          else .ok (cp, rest2)
        else .error ()
    | _ => .error ()
  else if 240 ≤ b ∧ b ≤ 244 then
    match rest with
    | c1 :: c2 :: c3 :: rest3 =>
        if 128 ≤ c1 ∧ c1 ≤ 191 ∧ 128 ≤ c2 ∧ c2 ≤ 191 ∧ 128 ≤ c3 ∧ c3 ≤ 191 then
          let cp := (b - 240) * 262144 + (c1 - 128) * 4096
              + (c2 - 128) * 64 + (c3 - 128)
          if cp < 65536 ∨ 1114111 < cp then .error ()
          else .ok (cp, rest3)
        else .error ()
    | _ => .error ()
  else .error ()

/-- Scalar-by-scalar UTF-8 decoding; each step consumes at least one byte so
the input length bounds the number of steps. -/
def utf8DecodeAux : Nat → List Nat → Except Unit PyStr
  | _, [] => .ok []
  | 0, _ :: _ => .error ()
  | fuel + 1, b :: rest =>
      match utf8Step b rest with
      | .error _ => .error ()
      | .ok (cp, rest1) => (utf8DecodeAux fuel rest1).map (cp :: ·)

/-- bytes.decode(): UTF-8 decoding. -/
def utf8Decode (bs : List Nat) : Except Unit PyStr := utf8DecodeAux bs.length bs

/-- Pure ASCII content decodes to itself. -/
theorem utf8DecodeAux_ascii (fuel : Nat) (s : List Nat) (hf : s.length ≤ fuel)
    (h : ∀ c ∈ s, c < 128) : utf8DecodeAux fuel s = .ok s := by
  induction fuel generalizing s with
  | zero =>
      cases s with
      | nil => rfl
      | cons b rest => simp at hf
  | succ f ih =>
      cases s with
      | nil => rfl
      | cons b rest =>
          rw [utf8DecodeAux, utf8Step.eq_def,
            if_pos (h b (List.mem_cons_self b rest))]
          show Except.map (fun x => b :: x) (utf8DecodeAux f rest)
            = Except.ok (b :: rest)
          rw [ih rest (by simp at hf; omega)
            (fun c hc => h c (List.mem_cons_of_mem b hc))]
          rfl

theorem utf8Decode_ascii (s : List Nat) (h : ∀ c ∈ s, c < 128) :
    utf8Decode s = .ok s :=
  utf8DecodeAux_ascii s.length s le_rfl h

deriving instance DecidableEq for Except

theorem pySplit_ne_nil (s : PyStr) (sep : Nat) : pySplit s sep ≠ [] := by
  cases s with
  | nil => simp [pySplit]
  | cons c rest =>
      rw [pySplit]
      by_cases hc : c = sep
      · simp [hc]
      · rw [if_neg hc]
        cases pySplit rest sep <;> simp

theorem pySplit_append (a b : PyStr) (sep : Nat) :
    pySplit (a ++ sep :: b) sep = pySplit a sep ++ pySplit b sep := by
  induction a with
  | nil =>
      simp [pySplit]
  | cons c a' ih =>
      by_cases hc : c = sep
      · subst hc
        rw [List.cons_append, pySplit, if_pos rfl, ih, pySplit, if_pos rfl]
        rfl
      · rw [List.cons_append, pySplit, if_neg hc, ih]
        rw [pySplit, if_neg hc]
        cases hsp : pySplit a' sep with
        | nil => exact absurd hsp (pySplit_ne_nil a' sep)
        | cons seg segs => rfl

theorem pySplit_no_sep (s : PyStr) (sep : Nat) (h : sep ∉ s) :
    pySplit s sep = [s] := by
  induction s with
  | nil => rfl
  | cons c rest ih =>
      rw [pySplit,
        if_neg (fun hc => h (by rw [← hc]; exact List.mem_cons_self c rest))]
      rw [ih (fun hm => h (List.mem_cons_of_mem c hm))]

theorem getLastD_irrel (y : List PyStr) (d1 d2 : PyStr) (h : y ≠ []) :
    y.getLastD d1 = y.getLastD d2 := by
  cases y with
  | nil => exact absurd rfl h
  | cons z zs => rw [List.getLastD_cons, List.getLastD_cons]

theorem getLastD_append_of_ne_nil (x y : List PyStr) (d : PyStr) (h : y ≠ []) :
    (x ++ y).getLastD d = y.getLastD d := by
  induction x generalizing d with
  | nil => rfl
  | cons a x' ih =>
      rw [List.cons_append, List.getLastD_cons, ih a]
      exact getLastD_irrel y a d h

/-! ## The response classifier and lifecycle of _send_to_gimp

The exchange and its classification (GimpScriptRunner.py lines 384-474) are
modelled as pure functions.  Process effects (spawn, kills, sink closes) are
recorded in a trace list in the order the source performs them; each raise
statement is an error result produced after the effects recorded so far. -/

inductive Effect
  | spawned
  | killedChild
  | killedDescendants
  | closedOutput
  | closedError
deriving DecidableEq

inductive RunError
  | paramTypeError (msg : PyStr)    -- GimpScriptException before spawning
  | scriptError (msg : PyStr)       -- GimpScriptException from the classifier
  | timeoutError (msg : PyStr)      -- GimpScriptExecutionTimeoutException
  | warningStripError (msg : PyStr) -- GimpException from strip_gimp_warnings
  | unicodeError                    -- UnicodeDecodeError / UnicodeEncodeError
deriving DecidableEq

inductive RunValue
  | text (s : PyStr)
  | binaryData (bs : PyBytes)
  | noOutput
deriving DecidableEq

structure RunConfig where
  processCheck : Bool
  binary : Bool
  hasOutputStream : Bool
  hasErrorStream : Bool
  fileToExecute : Option PyStr
deriving DecidableEq

/-- The sentinel token written by the injected exception hook. -/
def sentinel : PyStr := strLit "__GIMP_SCRIPT_ERROR__"

/-- Line 452/459: does the last line of the stripped text start with the
sentinel token? -/
def sentinelTriggered (s : PyStr) : Bool :=
  sentinel.isPrefixOf ((pySplit (pyStrip s) 10).getLastD [])

/-- Lines 461-462: rewrite the anonymous-source marker to the real file. -/
def rewriteFileMarker (fileToExecute : Option PyStr) (msg : PyStr) : PyStr :=
  match fileToExecute with
  | none => msg
  | some f =>
      pyReplaceFirst msg (strLit "File \"<string>\"")
        (strLit "File \"" ++ f ++ strLit "\"")

/-- Lines 457-466: classifying a present stderr content.  Returns the raised
error, or none when execution proceeds to return the payload. -/
def classifyStderr (fileToExecute : Option PyStr) (stderrContent : PyStr) :
    Option RunError :=
  if stderrContent = [] then none
  else
    let errorLines := pySplit (pyStrip stderrContent) 10
    if sentinel.isPrefixOf (errorLines.getLastD []) then
      let errorString := pyRsplitHead stderrContent 10 ++ [10]
      some (.scriptError (rewriteFileMarker fileToExecute errorString))
    else
      let errorLines2 := strip_initialization_warnings errorLines
      if errorLines2 = [] then none
      else some (.scriptError (pyJoin 10 errorLines2))

/-- Lines 432-474: consume the exchanged raw stdout/stderr bytes.  Returns
the close effects performed before returning or raising, and the outcome.
bytes.decode() is UTF-8; bytes.decode('latin1') is latin1Decode. -/
def classifyOutput (cfg : RunConfig) (stdout stderr : List Nat) :
    List Effect × Except RunError RunValue :=
  -- lines 432-438: stdout_content, closing the output sink in the elif
  let stdoutStep : List Effect × Except RunError (Option PyStr) :=
    if cfg.binary then ([], .ok none)
    else if cfg.hasOutputStream then ([.closedOutput], .ok none)
    else match utf8Decode stdout with
      | .error _ => ([], .error .unicodeError)
      | .ok t => ([], .ok (some t))
  match stdoutStep with
  | (eff1, .error e) => (eff1, .error e)
  | (eff1, .ok stdoutContent) =>
    -- lines 440-444: stderr_content, closing the error sink
    let stderrStep : List Effect × Except RunError (Option PyStr) :=
      if cfg.hasErrorStream then ([.closedError], .ok none)
      else match utf8Decode stderr with
        | .error _ => ([], .error .unicodeError)
        | .ok t =>
            match strip_gimp_warnings t with
            | .error m => ([], .error (.warningStripError m))
            | .ok sc => ([], .ok (some sc))
    match stderrStep with
    | (eff2, .error e) => (eff1 ++ eff2, .error e)
    | (eff2, .ok stderrContent0) =>
      let eff := eff1 ++ eff2
      -- lines 446-448: for binary output the plugin errors may sit in stdout
      let binStep : Except RunError (Option PyStr) :=
        if cfg.binary then
          match strip_gimp_warnings (latin1Decode stdout) with
          | .error m => .error (.warningStripError m)
          | .ok sw => .ok (some sw)
        else .ok none
      match binStep with
      | .error e => (eff, .error e)
      | .ok binStripped =>
        -- lines 449-455: sentinel scan of stdout when it is not redirected
        let sentinelStep : Except RunError (Option PyStr) :=
          if cfg.hasOutputStream then .ok stderrContent0
          else
            let soErrors : PyStr :=
              if cfg.binary then binStripped.getD []
              else stdoutContent.getD []
            if sentinelTriggered soErrors then
              if cfg.binary then
                match latin1Encode soErrors with
                | .error _ => .error .unicodeError
                | .ok bs =>
                    match utf8Decode bs with
                    | .error _ => .error .unicodeError
                    | .ok conv => .ok (some conv)
              else .ok (some soErrors)
            else .ok stderrContent0
        match sentinelStep with
        | .error e => (eff, .error e)
        | .ok stderrContent =>
          -- lines 457-466
          match classifyStderr cfg.fileToExecute (stderrContent.getD []) with
          | some e => (eff, .error e)
          | none =>
            -- lines 468-474
            if cfg.binary then
              match strip_gimp_warnings (latin1Decode stdout) with
              | .error m => (eff, .error (.warningStripError m))
              | .ok sw =>
                  match latin1Encode sw with
                  | .error _ => (eff, .error .unicodeError)
                  | .ok bs => (eff, .ok (.binaryData bs))
            else if cfg.hasOutputStream then (eff, .ok .noOutput)
            else
              match strip_gimp_warnings (stdoutContent.getD []) with
              | .error m => (eff, .error (.warningStripError m))
              | .ok t => (eff, .ok (.text t))

/-! ## Parameter codec: host-side repr literals and engine-side decoding

The host (lines 386-394) encodes scalars with repr; the engine side
(gimp/parameter.py) decodes with int(), float(), string comparison or eval.
eval on the repr of a bytes value is modelled as the bytes-literal reader:
the only shapes the encoder produces are literals, per the wire contract. -/

/-- Value of a pure digit string. -/
def natVal (s : PyStr) : Nat := s.foldl (fun a c => 10 * a + (c - 48)) 0

def isDigitB (c : Nat) : Bool := 48 ≤ c ∧ c ≤ 57

/-- repr of a nonnegative integer: decimal digits, most significant first. -/
def reprNat (n : Nat) : PyStr :=
  if n = 0 then [48] else (Nat.digits 10 n).reverse.map (fun d => 48 + d)

/-- repr of a Python int. -/
def reprInt (n : Int) : PyStr :=
  if n < 0 then 45 :: reprNat n.natAbs else reprNat n.toNat

/-- A nonempty all-digit string, or none. -/
def parseNatDigits (s : PyStr) : Option Nat :=
  if s ≠ [] ∧ s.all isDigitB then some (natVal s) else none

/-- The sign-and-digits part of int(str). -/
def pyParseIntCore : PyStr → Except PyStr Int
  | [] => .error (strLit "invalid literal for int")
  | c :: rest =>
      if c = 43 then
        match parseNatDigits rest with
        | some n => .ok (n : Int)
        | none => .error (strLit "invalid literal for int")
      else if c = 45 then
        match parseNatDigits rest with
        | some n => .ok (-(n : Int))
        | none => .error (strLit "invalid literal for int")
      else
        match parseNatDigits (c :: rest) with
        | some n => .ok (n : Int)
        | none => .error (strLit "invalid literal for int")

/-- Python int(str): strip whitespace, optional sign, decimal digits. -/
def pyParseInt (s : PyStr) : Except PyStr Int :=
  pyParseIntCore (pyStrip s)

/-- A CPython float: an IEEE double.  Finite values are dyadic rationals,
carried here as their exact rational value; the specials are separate. -/
inductive PyFloat
  | finite (q : ℚ)
  | inf
  | neginf
  | nan
deriving DecidableEq

/-- Python == on floats: nan compares unequal to everything, itself included;
finite values compare by value. -/
def pyFloatEqB : PyFloat → PyFloat → Bool
  | .nan, _ => false
  | _, .nan => false
  | .finite q, .finite r => q = r
  | .inf, .inf => true
  | .neginf, .neginf => true
  | _, _ => false

/-- repr of a float.  CPython prints the shortest decimal string that reads
back to the same double; this model prints the exact decimal expansion of
the dyadic value in scientific form (mantissa e exponent), which reads back
exactly the same way — both representations have the read-back property the
round trip relies on.  The non-dyadic branch is unreachable for values that
model actual doubles. -/
def reprFloat : PyFloat → PyStr
  | .nan => strLit "nan"
  | .inf => strLit "inf"
  | .neginf => strLit "-inf"
  | .finite q =>
      let t := Nat.log2 q.den
      if 2 ^ t = q.den then
        reprInt (q.num * 5 ^ t) ++ [101] ++ reprInt (-(t : Int))
      else strLit "unrepresentable"

def parseUnsignedMantissa (m : PyStr) : Option ℚ :=
  let d1 := m.takeWhile isDigitB
  match m.dropWhile isDigitB with
  | [] => if d1 = [] then none else some (natVal d1 : ℚ)
  | 46 :: r2 =>
      let d2 := r2.takeWhile isDigitB
      if r2.dropWhile isDigitB = [] ∧ (d1 ≠ [] ∨ d2 ≠ []) then
        some ((natVal (d1 ++ d2) : ℚ) / 10 ^ d2.length)
      else none
  | _ => none

def parseMantissa : PyStr → Option ℚ
  | [] => none
  | c :: r =>
      if c = 43 then parseUnsignedMantissa r
      else if c = 45 then (parseUnsignedMantissa r).map Neg.neg
      else parseUnsignedMantissa (c :: r)

def parseSignedInt : PyStr → Option Int
  | [] => none
  | c :: r =>
      if c = 43 then (parseNatDigits r).map Int.ofNat
      else if c = 45 then (parseNatDigits r).map (fun n => -(n : Int))
      else (parseNatDigits (c :: r)).map Int.ofNat

/-- Combine the mantissa part with what follows it (nothing, or the
exponent marker and the exponent digits). -/
def pyParseFloatSplit (mant : PyStr) : PyStr → Except PyStr PyFloat
  | [] =>
      match parseMantissa mant with
      | some q => .ok (.finite q)
      | none => .error (strLit "could not convert string to float")
  | _ :: exps =>
      match parseMantissa mant, parseSignedInt exps with
      | some q, some x => .ok (.finite (q * (10 : ℚ) ^ x))
      | _, _ => .error (strLit "could not convert string to float")

/-- Python float(str) on the literal shapes involved: strip, the specials,
or mantissa with optional e exponent, evaluated exactly (the inputs the
encoder produces are exactly representable, so rounding is the identity). -/
def pyParseFloat (s : PyStr) : Except PyStr PyFloat :=
  let t := pyStrip s
  if t = strLit "nan" then .ok .nan
  else if t = strLit "inf" then .ok .inf
  else if t = strLit "-inf" then .ok .neginf
  else
    pyParseFloatSplit (t.takeWhile (fun c => c ≠ 101 ∧ c ≠ 69))
      (t.dropWhile (fun c => c ≠ 101 ∧ c ≠ 69))

/-- repr quote choice for bytes: single quote, unless the content holds a
single quote and no double quote. -/
def bytesQuote (bs : PyBytes) : Nat :=
  if 39 ∈ bs ∧ ¬ (34 ∈ bs) then 34 else 39

def hexChar (n : Nat) : Nat := if n < 10 then 48 + n else 87 + n

/-- repr escaping of one byte under the chosen quote. -/
def escByte (q b : Nat) : List Nat :=
  if b = 92 then [92, 92]
  else if b = q then [92, q]
  else if b = 9 then [92, 116]
  else if b = 10 then [92, 110]
  else if b = 13 then [92, 114]
  else if 32 ≤ b ∧ b < 127 then [b]
  else [92, 120, hexChar (b / 16), hexChar (b % 16)]

/-- repr of a Python 3 bytes value: b, quote, escaped content, quote. -/
def reprBytes (bs : PyBytes) : PyStr :=
  let q := bytesQuote bs
  98 :: q :: (bs.flatMap (escByte q) ++ [q])

def hexVal (c : Nat) : Option Nat :=
  if 48 ≤ c ∧ c ≤ 57 then some (c - 48)
  else if 97 ≤ c ∧ c ≤ 102 then some (c - 87)
  else if 65 ≤ c ∧ c ≤ 70 then some (c - 55)
  else none

/-- Read the body of a bytes literal up to the closing quote, rejecting
trailing input, raw newlines and malformed escapes, with the escape forms
the encoder emits plus the quote escapes.  Each step consumes at least one
input element, so the input length bounds the number of steps.
escapeStep reads one escape sequence after a backslash; cont continues. -/
def escapeStep (q : Nat) (cont : List Nat → Option (List Nat)) :
    List Nat → Option (List Nat)
  | [] => none
  | e :: r2 =>
      if e = 92 then (cont r2).map (92 :: ·)
      else if e = 39 then (cont r2).map (39 :: ·)
      else if e = 34 then (cont r2).map (34 :: ·)
      else if e = 116 then (cont r2).map (9 :: ·)
      else if e = 110 then (cont r2).map (10 :: ·)
      else if e = 114 then (cont r2).map (13 :: ·)
      else if e = 120 then
        match r2 with
        | h1 :: h2 :: r3 =>
            match hexVal h1, hexVal h2 with
            | some x1, some x2 => (cont r3).map ((16 * x1 + x2) :: ·)
            | _, _ => none
        | _ => none
      else none

def parseBytesBodyF (q : Nat) : Nat → List Nat → Option (List Nat)
  | _, [] => none
  | 0, _ :: _ => none
  | fuel + 1, c :: rest =>
      if c = q then if rest = [] then some [] else none
      else if c = 92 then escapeStep q (parseBytesBodyF q fuel) rest
      else if c = 10 then none
      else (parseBytesBodyF q fuel rest).map (c :: ·)

def parseBytesBody (q : Nat) (s : List Nat) : Option (List Nat) :=
  parseBytesBodyF q s.length s

/-- The engine-side eval of an encoded byte-sequence parameter: reading the
bytes literal the host repr emitted. -/
def parseBytesLit (s : PyStr) : Except PyStr (List Nat) :=
  match s with
  | 98 :: q :: rest =>
      if q = 39 ∨ q = 34 then
        match parseBytesBody q rest with
        | some bs => .ok bs
        | none => .error (strLit "invalid bytes literal")
      else .error (strLit "invalid bytes literal")
  | _ => .error (strLit "invalid bytes literal")

/-- repr of a Python bool. -/
def reprBool (b : Bool) : PyStr := if b then strLit "True" else strLit "False"

/-! ## Round trip of the scalar encodings -/

theorem foldr_base10 (l : List Nat) :
    l.foldr (fun d a => 10 * a + d) 0 = Nat.ofDigits 10 l := by
  induction l with
  | nil => rfl
  | cons d L ih =>
      rw [List.foldr_cons, ih]
      have : Nat.ofDigits 10 (d :: L) = d + 10 * Nat.ofDigits 10 L := rfl
      rw [this]
      omega

theorem natVal_reprNat (n : Nat) : natVal (reprNat n) = n := by
  unfold natVal reprNat
  by_cases h0 : n = 0
  · subst h0
    simp
  · rw [if_neg h0]
    rw [List.map_reverse, List.foldl_reverse, List.foldr_map]
    have hfun : (fun (x : Nat) (y : Nat) => 10 * y + (48 + x - 48))
        = (fun (x : Nat) (y : Nat) => 10 * y + x) := by
      funext x y
      omega
    rw [hfun]
    rw [foldr_base10]
    exact Nat.ofDigits_digits 10 n

theorem reprNat_ne_nil (n : Nat) : reprNat n ≠ [] := by
  unfold reprNat
  by_cases h0 : n = 0
  · simp [h0]
  · rw [if_neg h0]
    simp only [ne_eq, List.map_eq_nil, List.reverse_eq_nil_iff]
    exact Nat.digits_ne_nil_iff_ne_zero.mpr h0

theorem reprNat_digits (n : Nat) : ∀ c ∈ reprNat n, 48 ≤ c ∧ c ≤ 57 := by
  intro c hc
  unfold reprNat at hc
  by_cases h0 : n = 0
  · rw [if_pos h0] at hc
    simp only [List.mem_singleton] at hc
    omega
  · rw [if_neg h0] at hc
    simp only [List.mem_map, List.mem_reverse] at hc
    rcases hc with ⟨d, hd, rfl⟩
    have := Nat.digits_lt_base' hd
    omega

theorem parseNatDigits_reprNat (n : Nat) :
    parseNatDigits (reprNat n) = some n := by
  unfold parseNatDigits
  rw [if_pos]
  · rw [natVal_reprNat]
  · refine ⟨reprNat_ne_nil n, ?_⟩
    rw [List.all_eq_true]
    intro c hc
    have := reprNat_digits n c hc
    unfold isDigitB
    exact decide_eq_true (by omega)

theorem noWs_of_digit_range (s : PyStr)
    (h : ∀ c ∈ s, (48 ≤ c ∧ c ≤ 57) ∨ c = 45 ∨ c = 101) :
    ∀ c ∈ s, pyIsSpace c = false := by
  intro c hc
  have hr := h c hc
  unfold pyIsSpace
  rw [decide_eq_false_iff_not]
  omega

theorem pyStrip_of_no_ws (s : PyStr) (h : ∀ c ∈ s, pyIsSpace c = false) :
    pyStrip s = s := by
  unfold pyStrip
  have hdw : ∀ (t : PyStr), (∀ c ∈ t, pyIsSpace c = false) →
      t.dropWhile pyIsSpace = t := by
    intro t ht
    cases t with
    | nil => rfl
    | cons c rest =>
        rw [List.dropWhile_cons, ht c (List.mem_cons_self c rest)]
        simp
  rw [hdw s h]
  rw [hdw s.reverse (fun c hc => h c (List.mem_reverse.mp hc))]
  exact List.reverse_reverse s

theorem reprInt_chars (n : Int) :
    ∀ c ∈ reprInt n, (48 ≤ c ∧ c ≤ 57) ∨ c = 45 := by
  intro c hc
  unfold reprInt at hc
  by_cases hneg : n < 0
  · rw [if_pos hneg] at hc
    rcases List.mem_cons.mp hc with rfl | hm
    · right; rfl
    · exact Or.inl (reprNat_digits _ c hm)
  · rw [if_neg hneg] at hc
    exact Or.inl (reprNat_digits _ c hc)

theorem pyStrip_reprInt (n : Int) : pyStrip (reprInt n) = reprInt n :=
  pyStrip_of_no_ws _ (noWs_of_digit_range _
    (fun c hc => (reprInt_chars n c hc).imp id Or.inl))

theorem pyParseInt_reprInt (n : Int) : pyParseInt (reprInt n) = .ok n := by
  unfold pyParseInt
  rw [pyStrip_reprInt]
  by_cases hneg : n < 0
  · have hrepr : reprInt n = 45 :: reprNat n.natAbs := by
      unfold reprInt
      rw [if_pos hneg]
    rw [hrepr, pyParseIntCore]
    have h43 : ¬ ((45 : Nat) = 43) := by omega
    rw [if_neg h43, if_pos rfl, parseNatDigits_reprNat]
    have hco : -((n.natAbs : Int)) = n := by omega
    show Except.ok (-((n.natAbs : Int))) = Except.ok n
    rw [hco]
  · have hrepr : reprInt n = reprNat n.toNat := by
      unfold reprInt
      rw [if_neg hneg]
    obtain ⟨c, rest, hcr⟩ : ∃ c rest, reprNat n.toNat = c :: rest := by
      cases hr : reprNat n.toNat with
      | nil => exact absurd hr (reprNat_ne_nil _)
      | cons c rest => exact ⟨c, rest, rfl⟩
    have hdigit : 48 ≤ c ∧ c ≤ 57 :=
      reprNat_digits n.toNat c (by rw [hcr]; exact List.mem_cons_self c rest)
    rw [hrepr, hcr, pyParseIntCore]
    rw [if_neg (by omega), if_neg (by omega)]
    rw [← hcr, parseNatDigits_reprNat]
    have hco : ((n.toNat : Int)) = n := Int.toNat_of_nonneg (by omega)
    show Except.ok ((n.toNat : Int)) = Except.ok n
    rw [hco]

theorem takeWhile_all (p : Nat → Bool) (l : PyStr) (h : ∀ x ∈ l, p x = true) :
    l.takeWhile p = l := by
  induction l with
  | nil => rfl
  | cons c r ih =>
      rw [List.takeWhile_cons, h c (List.mem_cons_self c r),
        ih (fun x hx => h x (List.mem_cons_of_mem c hx))]
      simp

theorem dropWhile_all (p : Nat → Bool) (l : PyStr) (h : ∀ x ∈ l, p x = true) :
    l.dropWhile p = [] := by
  induction l with
  | nil => rfl
  | cons c r ih =>
      rw [List.dropWhile_cons, h c (List.mem_cons_self c r)]
      simp only [if_true]
      exact ih (fun x hx => h x (List.mem_cons_of_mem c hx))

theorem takeWhile_append_stop (p : Nat → Bool) (a b : PyStr) (c : Nat)
    (ha : ∀ x ∈ a, p x = true) (hc : p c = false) :
    (a ++ c :: b).takeWhile p = a := by
  induction a with
  | nil => simp [List.takeWhile_cons, hc]
  | cons x a' ih =>
      rw [List.cons_append, List.takeWhile_cons,
        ha x (List.mem_cons_self x a'),
        ih (fun y hy => ha y (List.mem_cons_of_mem x hy))]
      simp

theorem dropWhile_append_stop (p : Nat → Bool) (a b : PyStr) (c : Nat)
    (ha : ∀ x ∈ a, p x = true) (hc : p c = false) :
    (a ++ c :: b).dropWhile p = c :: b := by
  induction a with
  | nil => simp [List.dropWhile_cons, hc]
  | cons x a' ih =>
      rw [List.cons_append, List.dropWhile_cons,
        ha x (List.mem_cons_self x a')]
      simp only [if_true]
      exact ih (fun y hy => ha y (List.mem_cons_of_mem x hy))

theorem parseUnsignedMantissa_reprNat (n : Nat) :
    parseUnsignedMantissa (reprNat n) = some (n : ℚ) := by
  unfold parseUnsignedMantissa
  have hdig : ∀ x ∈ reprNat n, isDigitB x = true := by
    intro x hx
    have := reprNat_digits n x hx
    unfold isDigitB
    exact decide_eq_true (by omega)
  rw [dropWhile_all _ _ hdig, takeWhile_all _ _ hdig]
  show (if reprNat n = [] then none
    else some ((natVal (reprNat n) : ℚ))) = some ((n : Nat) : ℚ)
  rw [if_neg (by simpa using reprNat_ne_nil n)]
  rw [natVal_reprNat]

theorem parseMantissa_reprInt (n : Int) :
    parseMantissa (reprInt n) = some ((n : ℚ)) := by
  by_cases hneg : n < 0
  · have hrepr : reprInt n = 45 :: reprNat n.natAbs := by
      unfold reprInt; rw [if_pos hneg]
    rw [hrepr, parseMantissa]
    rw [if_neg (by omega), if_pos rfl, parseUnsignedMantissa_reprNat]
    show some (-((n.natAbs : Nat) : ℚ)) = some ((n : ℚ))
    congr 1
    have h1 : ((n.natAbs : ℤ)) = -n := by omega
    calc -((n.natAbs : Nat) : ℚ) = -(((n.natAbs : ℤ) : ℚ)) := by norm_cast
    _ = -(((-n : ℤ) : ℚ)) := by rw [h1]
    _ = (n : ℚ) := by push_cast; ring
  · have hrepr : reprInt n = reprNat n.toNat := by
      unfold reprInt; rw [if_neg hneg]
    obtain ⟨c, rest, hcr⟩ : ∃ c rest, reprNat n.toNat = c :: rest := by
      cases hr : reprNat n.toNat with
      | nil => exact absurd hr (reprNat_ne_nil _)
      | cons c rest => exact ⟨c, rest, rfl⟩
    have hdigit : 48 ≤ c ∧ c ≤ 57 :=
      reprNat_digits n.toNat c (by rw [hcr]; exact List.mem_cons_self c rest)
    rw [hrepr, hcr, parseMantissa]
    rw [if_neg (by omega), if_neg (by omega), ← hcr,
      parseUnsignedMantissa_reprNat]
    congr 1
    have h1 : ((n.toNat : Int)) = n := Int.toNat_of_nonneg (by omega)
    calc ((n.toNat : Nat) : ℚ) = (((n.toNat : ℤ)) : ℚ) := by norm_cast
    _ = (n : ℚ) := by rw [h1]

theorem parseSignedInt_reprInt (n : Int) :
    parseSignedInt (reprInt n) = some n := by
  by_cases hneg : n < 0
  · have hrepr : reprInt n = 45 :: reprNat n.natAbs := by
      unfold reprInt; rw [if_pos hneg]
    rw [hrepr, parseSignedInt]
    rw [if_neg (by omega), if_pos rfl, parseNatDigits_reprNat]
    show some (-((n.natAbs : Nat) : ℤ)) = some n
    congr 1
    omega
  · have hrepr : reprInt n = reprNat n.toNat := by
      unfold reprInt; rw [if_neg hneg]
    obtain ⟨c, rest, hcr⟩ : ∃ c rest, reprNat n.toNat = c :: rest := by
      cases hr : reprNat n.toNat with
      | nil => exact absurd hr (reprNat_ne_nil _)
      | cons c rest => exact ⟨c, rest, rfl⟩
    have hdigit : 48 ≤ c ∧ c ≤ 57 :=
      reprNat_digits n.toNat c (by rw [hcr]; exact List.mem_cons_self c rest)
    rw [hrepr, hcr, parseSignedInt]
    rw [if_neg (by omega), if_neg (by omega), ← hcr, parseNatDigits_reprNat]
    show some (((n.toNat : Nat) : ℤ)) = some n
    congr 1
    omega

/-- The float encode/decode round trip on finite doubles: every double is a
dyadic rational, and the emitted exact literal reads back to that value. -/
theorem pyParseFloat_reprFloat_finite (q : ℚ) (t : Nat) (hden : q.den = 2 ^ t) :
    pyParseFloat (reprFloat (.finite q)) = .ok (.finite q) := by
  have hrepr : reprFloat (.finite q)
      = reprInt (q.num * 5 ^ t) ++ [101] ++ reprInt (-(t : Int)) := by
    rw [reprFloat, hden, Nat.log2_two_pow]
    show (if (2 : Nat) ^ t = 2 ^ t
        then reprInt (q.num * 5 ^ t) ++ [101] ++ reprInt (-(t : Int))
        else strLit "unrepresentable")
      = reprInt (q.num * 5 ^ t) ++ [101] ++ reprInt (-(t : Int))
    rw [if_pos rfl]
  have hs : reprInt (q.num * 5 ^ t) ++ [101] ++ reprInt (-(t : Int))
      = reprInt (q.num * 5 ^ t) ++ 101 :: reprInt (-(t : Int)) := by
    simp
  have hchars : ∀ c ∈ reprInt (q.num * 5 ^ t) ++ 101 :: reprInt (-(t : Int)),
      (48 ≤ c ∧ c ≤ 57) ∨ c = 45 ∨ c = 101 := by
    intro c hc
    rcases List.mem_append.mp hc with h1 | h2
    · exact (reprInt_chars _ c h1).imp id Or.inl
    · rcases List.mem_cons.mp h2 with rfl | h3
      · right; right; rfl
      · exact (reprInt_chars _ c h3).imp id Or.inl
  have h101 : (101 : Nat) ∈ reprInt (q.num * 5 ^ t) ++ 101 :: reprInt (-(t : Int)) :=
    List.mem_append_right _ (List.mem_cons_self _ _)
  rw [hrepr, hs]
  unfold pyParseFloat
  rw [pyStrip_of_no_ws _ (noWs_of_digit_range _ hchars)]
  rw [if_neg (fun heq => by rw [heq] at h101; revert h101; decide)]
  rw [if_neg (fun heq => by rw [heq] at h101; revert h101; decide)]
  rw [if_neg (fun heq => by rw [heq] at h101; revert h101; decide)]
  have hp : ∀ x ∈ reprInt (q.num * 5 ^ t),
      (fun c => decide (¬ c = 101 ∧ ¬ c = 69)) x = true := by
    intro x hx
    rcases reprInt_chars _ x hx with h1 | h2
    · exact decide_eq_true (by omega)
    · exact decide_eq_true (by omega)
  have hpc : (fun c => decide (¬ c = 101 ∧ ¬ c = 69)) 101 = false := by decide
  rw [takeWhile_append_stop _ _ _ _ hp hpc, dropWhile_append_stop _ _ _ _ hp hpc]
  rw [pyParseFloatSplit]
  rw [parseMantissa_reprInt, parseSignedInt_reprInt]
  show (Except.ok (PyFloat.finite (((q.num * 5 ^ t : ℤ) : ℚ) * (10 : ℚ) ^ (-(t : Int))))
      : Except PyStr PyFloat)
    = Except.ok (PyFloat.finite q)
  congr 2
  have hdnz : ((q.den : ℚ)) ≠ 0 := Nat.cast_ne_zero.mpr q.den_nz
  have hq : ((q.num : ℚ)) = q * ((q.den : ℚ)) := by
    have h := Rat.num_div_den q
    rw [div_eq_iff hdnz] at h
    exact h
  have h25 : ((10 : ℚ)) ^ t = 2 ^ t * 5 ^ t := by
    rw [show ((10 : ℚ)) = 2 * 5 by norm_num, mul_pow]
  have h10 : ((10 : ℚ)) ^ t ≠ 0 := by positivity
  rw [zpow_neg, zpow_natCast]
  rw [mul_inv_eq_iff_eq_mul₀ h10]
  push_cast
  rw [hq, hden]
  push_cast
  rw [h25]
  ring

theorem hexVal_hexChar : ∀ x : Nat, x < 16 → hexVal (hexChar x) = some x := by
  decide

theorem parseBytesBodyF_roundtrip (q : Nat) (hq : q = 39 ∨ q = 34)
    (bs : List Nat) (hlt : ∀ b ∈ bs, b < 256) :
    ∀ fuel, (bs.flatMap (escByte q) ++ [q]).length ≤ fuel →
      parseBytesBodyF q fuel (bs.flatMap (escByte q) ++ [q]) = some bs := by
  have hq92 : ¬ ((92 : Nat) = q) := by rcases hq with rfl | rfl <;> omega
  induction bs with
  | nil =>
      intro fuel hfuel
      simp only [List.flatMap_nil, List.nil_append, List.length_cons,
        List.length_nil] at hfuel ⊢
      obtain ⟨f, rfl⟩ : ∃ f, fuel = f + 1 := ⟨fuel - 1, by omega⟩
      rw [parseBytesBodyF, if_pos rfl]
      simp
  | cons b tl ih =>
      intro fuel hfuel
      have hb : b < 256 := hlt b (List.mem_cons_self b tl)
      have ihtl := ih (fun x hx => hlt x (List.mem_cons_of_mem b hx))
      have hstep : (b :: tl).flatMap (escByte q) ++ [q]
          = escByte q b ++ (tl.flatMap (escByte q) ++ [q]) := by
        rw [List.flatMap_cons, List.append_assoc]
      rw [hstep]
      rw [hstep, List.length_append] at hfuel
      by_cases h92 : b = 92
      · have hesc : escByte q b = [92, 92] := by rw [escByte, if_pos h92]
        rw [hesc] at hfuel ⊢
        simp only [List.length_cons, List.length_nil] at hfuel
        obtain ⟨f, rfl⟩ : ∃ f, fuel = f + 1 := ⟨fuel - 1, by omega⟩
        rw [List.cons_append, List.cons_append, List.nil_append,
          parseBytesBodyF, if_neg hq92, if_pos rfl]
        show (parseBytesBodyF q f (tl.flatMap (escByte q) ++ [q])).map (92 :: ·)
          = some (b :: tl)
        rw [ihtl f (by omega), h92]
        rfl
      · by_cases hbq : b = q
        · have hesc : escByte q b = [92, q] := by
            rw [escByte, if_neg (by omega), if_pos hbq]
          rw [hesc] at hfuel ⊢
          simp only [List.length_cons, List.length_nil] at hfuel
          obtain ⟨f, rfl⟩ : ∃ f, fuel = f + 1 := ⟨fuel - 1, by omega⟩
          rw [List.cons_append, List.cons_append, List.nil_append,
            parseBytesBodyF, if_neg hq92, if_pos rfl]
          rcases hq with rfl | rfl
          · show (parseBytesBodyF 39 f (tl.flatMap (escByte 39) ++ [39])).map
                (39 :: ·) = some (b :: tl)
            rw [ihtl f (by omega), hbq]
            rfl
          · show (parseBytesBodyF 34 f (tl.flatMap (escByte 34) ++ [34])).map
                (34 :: ·) = some (b :: tl)
            rw [ihtl f (by omega), hbq]
            rfl
        · by_cases h9 : b = 9
          · have hesc : escByte q b = [92, 116] := by
              rw [escByte, if_neg (by omega), if_neg hbq, if_pos h9]
            rw [hesc] at hfuel ⊢
            simp only [List.length_cons, List.length_nil] at hfuel
            obtain ⟨f, rfl⟩ : ∃ f, fuel = f + 1 := ⟨fuel - 1, by omega⟩
            rw [List.cons_append, List.cons_append, List.nil_append,
              parseBytesBodyF, if_neg hq92, if_pos rfl]
            show (parseBytesBodyF q f (tl.flatMap (escByte q) ++ [q])).map (9 :: ·)
              = some (b :: tl)
            rw [ihtl f (by omega), h9]
            rfl
          · by_cases h10 : b = 10
            · have hesc : escByte q b = [92, 110] := by
                rw [escByte, if_neg (by omega), if_neg hbq, if_neg h9, if_pos h10]
              rw [hesc] at hfuel ⊢
              simp only [List.length_cons, List.length_nil] at hfuel
              obtain ⟨f, rfl⟩ : ∃ f, fuel = f + 1 := ⟨fuel - 1, by omega⟩
              rw [List.cons_append, List.cons_append, List.nil_append,
                parseBytesBodyF, if_neg hq92, if_pos rfl]
              show (parseBytesBodyF q f (tl.flatMap (escByte q) ++ [q])).map
                  (10 :: ·) = some (b :: tl)
              rw [ihtl f (by omega), h10]
              rfl
            · by_cases h13 : b = 13
              · have hesc : escByte q b = [92, 114] := by
                  rw [escByte, if_neg (by omega), if_neg hbq, if_neg h9,
                    if_neg h10, if_pos h13]
                rw [hesc] at hfuel ⊢
                simp only [List.length_cons, List.length_nil] at hfuel
                obtain ⟨f, rfl⟩ : ∃ f, fuel = f + 1 := ⟨fuel - 1, by omega⟩
                rw [List.cons_append, List.cons_append, List.nil_append,
                  parseBytesBodyF, if_neg hq92, if_pos rfl]
                show (parseBytesBodyF q f (tl.flatMap (escByte q) ++ [q])).map
                    (13 :: ·) = some (b :: tl)
                rw [ihtl f (by omega), h13]
                rfl
              · by_cases hpr : 32 ≤ b ∧ b < 127
                · have hesc : escByte q b = [b] := by
                    rw [escByte, if_neg (by omega), if_neg hbq, if_neg h9,
                      if_neg h10, if_neg h13, if_pos hpr]
                  rw [hesc] at hfuel ⊢
                  simp only [List.length_cons, List.length_nil] at hfuel
                  obtain ⟨f, rfl⟩ : ∃ f, fuel = f + 1 := ⟨fuel - 1, by omega⟩
                  rw [List.cons_append, List.nil_append, parseBytesBodyF]
                  rw [if_neg hbq, if_neg h92, if_neg h10]
                  rw [ihtl f (by omega)]
                  rfl
                · have hesc : escByte q b
                      = [92, 120, hexChar (b / 16), hexChar (b % 16)] := by
                    rw [escByte, if_neg (by omega), if_neg hbq, if_neg h9,
                      if_neg h10, if_neg h13, if_neg hpr]
                  rw [hesc] at hfuel ⊢
                  simp only [List.length_cons, List.length_nil] at hfuel
                  obtain ⟨f, rfl⟩ : ∃ f, fuel = f + 1 := ⟨fuel - 1, by omega⟩
                  rw [List.cons_append, List.cons_append, List.cons_append,
                    List.cons_append, List.nil_append]
                  rw [parseBytesBodyF, if_neg hq92, if_pos rfl]
                  show (if (120 : Nat) = 92 then
                      (parseBytesBodyF q f (hexChar (b / 16) :: hexChar (b % 16)
                        :: (tl.flatMap (escByte q) ++ [q]))).map (92 :: ·)
                    else if (120 : Nat) = 39 then
                      (parseBytesBodyF q f (hexChar (b / 16) :: hexChar (b % 16)
                        :: (tl.flatMap (escByte q) ++ [q]))).map (39 :: ·)
                    else if (120 : Nat) = 34 then
                      (parseBytesBodyF q f (hexChar (b / 16) :: hexChar (b % 16)
                        :: (tl.flatMap (escByte q) ++ [q]))).map (34 :: ·)
                    else if (120 : Nat) = 116 then
                      (parseBytesBodyF q f (hexChar (b / 16) :: hexChar (b % 16)
                        :: (tl.flatMap (escByte q) ++ [q]))).map (9 :: ·)
                    else if (120 : Nat) = 110 then
                      (parseBytesBodyF q f (hexChar (b / 16) :: hexChar (b % 16)
                        :: (tl.flatMap (escByte q) ++ [q]))).map (10 :: ·)
                    else if (120 : Nat) = 114 then
                      (parseBytesBodyF q f (hexChar (b / 16) :: hexChar (b % 16)
                        :: (tl.flatMap (escByte q) ++ [q]))).map (13 :: ·)
                    else if (120 : Nat) = 120 then
                      match hexVal (hexChar (b / 16)), hexVal (hexChar (b % 16)) with
                      | some x1, some x2 =>
                          (parseBytesBodyF q f (tl.flatMap (escByte q) ++ [q])).map
                            ((16 * x1 + x2) :: ·)
                      | _, _ => none
                    else none) = some (b :: tl)
                  rw [if_neg (by omega), if_neg (by omega), if_neg (by omega),
                    if_neg (by omega), if_neg (by omega), if_neg (by omega),
                    if_pos rfl]
                  rw [hexVal_hexChar (b / 16) (by omega),
                    hexVal_hexChar (b % 16) (by omega)]
                  show (parseBytesBodyF q f (tl.flatMap (escByte q) ++ [q])).map
                      ((16 * (b / 16) + b % 16) :: ·) = some (b :: tl)
                  rw [ihtl f (by omega)]
                  have hbval : 16 * (b / 16) + b % 16 = b := by omega
                  rw [hbval]
                  rfl

theorem parseBytesLit_reprBytes (bs : List Nat) (hlt : ∀ b ∈ bs, b < 256) :
    parseBytesLit (reprBytes bs) = .ok bs := by
  have hq : bytesQuote bs = 39 ∨ bytesQuote bs = 34 := by
    unfold bytesQuote
    by_cases h : 39 ∈ bs ∧ ¬ (34 ∈ bs)
    · rw [if_pos h]; right; rfl
    · rw [if_neg h]; left; rfl
  unfold reprBytes
  rw [parseBytesLit]
  rw [if_pos (by rcases hq with h | h <;> simp [h])]
  unfold parseBytesBody
  rw [parseBytesBodyF_roundtrip (bytesQuote bs) hq bs hlt _ le_rfl]

/-! ## Engine-side parameter access (gimp/parameter.py)

The environment the child sees maps names to wire strings.  get_parameter
returns the typed default only when it is not None and the name is absent;
otherwise the environment string.  Each typed getter therefore either
passes the default through or decodes the string. -/

/-- The environment as the child sees it. -/
abbrev ChildEnv := List (String × PyStr)

def envLookup (env : ChildEnv) (name : String) : Option PyStr :=
  (env.find? (fun p => p.1 = name)).map (fun p => p.2)

/-- gimp/parameter.py get_string = get_parameter. -/
def get_string (env : ChildEnv) (name : String) (default : Option PyStr) :
    Except PyStr PyStr :=
  match envLookup env name with
  | some v => .ok v
  | none =>
      match default with
      | some d => .ok d
      | none => .error (strLit "KeyError")

/-- gimp/parameter.py get_bool. -/
def get_bool (env : ChildEnv) (name : String) (default : Option Bool) :
    Except PyStr Bool :=
  match envLookup env name with
  | some v =>
      if v = strLit "True" then .ok true
      else if v = strLit "False" then .ok false
      else .error (strLit "Could not decode to boolean")
  | none =>
      match default with
      | some d => .ok d
      | none => .error (strLit "KeyError")

/-- gimp/parameter.py get_int: int() of the parameter. -/
def get_int (env : ChildEnv) (name : String) (default : Option Int) :
    Except PyStr Int :=
  match envLookup env name with
  | some v => pyParseInt v
  | none =>
      match default with
      | some d => .ok d
      | none => .error (strLit "KeyError")

/-- gimp/parameter.py get_float: float() of the parameter. -/
def get_float (env : ChildEnv) (name : String) (default : Option PyFloat) :
    Except PyStr PyFloat :=
  match envLookup env name with
  | some v => pyParseFloat v
  | none =>
      match default with
      | some d => .ok d
      | none => .error (strLit "KeyError")

/-- gimp/parameter.py get_bytes: eval() of the parameter, the bytes-literal
reader on the shapes the host encoder produces. -/
def get_bytes (env : ChildEnv) (name : String) (default : Option PyStr) :
    Except PyStr (List Nat) :=
  match envLookup env name with
  | some v => parseBytesLit v
  | none =>
      match default with
      | some d => parseBytesLit d
      | none => .error (strLit "KeyError")

/-! ## The scalar parameter kinds of the claim and their round trip -/

/-- A supported scalar parameter value on the host side. -/
inductive ScalarValue
  | vstr (s : PyStr)
  | vbool (b : Bool)
  | vint (n : Int)
  | vfloat (f : PyFloat)
  | vbytes (bs : List Nat)
deriving DecidableEq

/-- Host-side encoding of one scalar parameter (lines 386-390): strings pass
through, the other scalars are repr literals. -/
def encodeScalar : ScalarValue → PyStr
  | .vstr s => s
  | .vbool b => reprBool b
  | .vint n => reprInt n
  | .vfloat f => reprFloat f
  | .vbytes bs => reprBytes bs

/-- Well-formedness of a scalar value as produced by a Python caller:
byte values fit a byte, finite floats are dyadic (every double is). -/
def scalarWellFormed : ScalarValue → Prop
  | .vbytes bs => ∀ b ∈ bs, b < 256
  | .vfloat (.finite q) => ∃ t : Nat, q.den = 2 ^ t
  | _ => True

/-- Decoding with the matching engine-side getter yields a value equal to
the original (Python ==) and of the original kind. -/
def decodesBack (name : String) : ScalarValue → Prop
  | .vstr s => get_string [(name, encodeScalar (.vstr s))] name none = .ok s
  | .vbool b => get_bool [(name, encodeScalar (.vbool b))] name none = .ok b
  | .vint n => get_int [(name, encodeScalar (.vint n))] name none = .ok n
  | .vfloat f => ∃ g, get_float [(name, encodeScalar (.vfloat f))] name none
      = .ok g ∧ pyFloatEqB f g = true
  | .vbytes bs => get_bytes [(name, encodeScalar (.vbytes bs))] name none = .ok bs

theorem envLookup_single (name : String) (v : PyStr) :
    envLookup [(name, v)] name = some v := by
  unfold envLookup
  rw [List.find?_cons_of_pos _ (by simp)]
  rfl

/-! ## Host-side parameter encoding (lines 384-396) -/

/-- A JSON value as json.dumps receives it (list/tuple/dict parameters). -/
inductive Json
  | jnull
  | jbool (b : Bool)
  | jint (n : Int)
  | jnum (f : PyFloat)
  | jstr (s : PyStr)
  | jarr (xs : List Json)
  | jobj (kvs : List (PyStr × Json))

/-- json.dumps string escaping with ensure_ascii (backslash, quote, control
and non-ASCII characters escaped). -/
def jsonEscapeChar (c : Nat) : List Nat :=
  if c = 34 then [92, 34]
  else if c = 92 then [92, 92]
  else if c < 32 ∨ 127 ≤ c then
    [92, 117, hexChar (c / 4096 % 16), hexChar (c / 256 % 16),
     hexChar (c / 16 % 16), hexChar (c % 16)]
  else [c]

mutual
/-- json.dumps on a tree. -/
def jsonDumps : Json → PyStr
  | .jnull => strLit "null"
  | .jbool b => if b then strLit "true" else strLit "false"
  | .jint n => reprInt n
  | .jnum f => reprFloat f
  | .jstr s => 34 :: (s.flatMap jsonEscapeChar ++ [34])
  | .jarr xs => 91 :: (jsonDumpsList xs ++ [93])
  | .jobj kvs => 123 :: (jsonDumpsObj kvs ++ [125])

def jsonDumpsList : List Json → PyStr
  | [] => []
  | [x] => jsonDumps x
  | x :: y :: rest => jsonDumps x ++ [44, 32] ++ jsonDumpsList (y :: rest)

def jsonDumpsObj : List (PyStr × Json) → PyStr
  | [] => []
  | [(k, v)] => (34 :: (k.flatMap jsonEscapeChar ++ [34, 58, 32])) ++ jsonDumps v
  | (k, v) :: p :: rest =>
      (34 :: (k.flatMap jsonEscapeChar ++ [34, 58, 32])) ++ jsonDumps v
        ++ [44, 32] ++ jsonDumpsObj (p :: rest)
end

/-- A parameter value as the host receives it in the parameters dict. -/
inductive ParamValue
  | pstr (s : PyStr)
  | pbool (b : Bool)
  | pint (n : Int)
  | pfloat (f : PyFloat)
  | pbytes (bs : List Nat)
  | plist (xs : List Json)
  | ptuple (xs : List Json)
  | pdict (kvs : List (PyStr × Json))
  | pnone
  | pother (typeName : PyStr)

/-- Lines 386-394: the per-entry encoding ladder.  A str passes through; a
bool/int/float/bytes is its repr; a list/tuple/dict is json.dumps; anything
else — None included, since None is none of those types — raises
GimpScriptException with the type name. -/
def encodeParam : ParamValue → Except RunError PyStr
  | .pstr s => .ok s
  | .pbool b => .ok (reprBool b)
  | .pint n => .ok (reprInt n)
  | .pfloat f => .ok (reprFloat f)
  | .pbytes bs => .ok (reprBytes bs)
  | .plist xs => .ok (jsonDumps (.jarr xs))
  | .ptuple xs => .ok (jsonDumps (.jarr xs))
  | .pdict kvs => .ok (jsonDumps (.jobj kvs))
  | .pnone => .error (.paramTypeError
      (strLit "Cannot interpret parameter type NoneType"))
  | .pother t => .error (.paramTypeError
      (strLit "Cannot interpret parameter type " ++ t))

/-- Lines 384-396 over the whole dict: the first entry the ladder rejects
raises; otherwise every entry is encoded. -/
def parseParameters : List (String × ParamValue) →
    Except RunError (List (String × PyStr))
  | [] => .ok []
  | (k, v) :: rest =>
      match encodeParam v with
      | .error e => .error e
      | .ok w =>
          match parseParameters rest with
          | .error e => .error e
          | .ok ws => .ok ((k, w) :: ws)

/-! ## The child environment the runner builds (lines 376-396) -/

/-- dict update of one key. -/
def envSet (env : ChildEnv) (k : String) (v : PyStr) : ChildEnv :=
  if env.any (fun p => p.1 = k) then
    env.map (fun p => if p.1 = k then (k, v) else p)
  else env ++ [(k, v)]

/-- dict.update with a list of pairs. -/
def envUpdate (env : ChildEnv) : List (String × PyStr) → ChildEnv
  | [] => env
  | (k, v) :: rest => envUpdate (envSet env k v) rest

/-- Lines 376-382 and 396: start from the working directory entry, overlay
the host environment, prepend the python2 path to PYTHONPATH, overlay the
runner's own non-None environment entries, then the encoded parameters. -/
def buildGimpEnvironment (hostEnv : ChildEnv) (workingDirectory p2path : PyStr)
    (selfEnv : List (String × Option PyStr)) (params : List (String × PyStr)) :
    ChildEnv :=
  let e1 := envUpdate [("__working_directory__", workingDirectory)] hostEnv
  let e2 :=
    match envLookup e1 "PYTHONPATH" with
    | none => envSet e1 "PYTHONPATH" p2path
    | some pp => envSet e1 "PYTHONPATH" (p2path ++ strLit ":" ++ pp)
  let e3 := envUpdate e2
    (selfEnv.filterMap (fun p => p.2.map (fun v => (p.1, v))))
  envUpdate e3 params

/-! ## The wrapped program and the bootstrap's environment reads -/

/-- Line 408. -/
def quitSuffix : PyStr := strLit "\npdb.gimp_quit(0)"

/-- Lines 406-410: the program piped to the child.  The initializer source
and the path-extension line are prepended unconditionally — the wrapping
does not depend on whether output or error sinks were requested. -/
def wrapCode (initializerSrc extendPath code : PyStr) : PyStr :=
  initializerSrc ++ [10] ++ extendPath ++ code ++ quitSuffix

/-- initializer.py lines 10-14, as run against the child environment: the
three redirection variables are read unconditionally (plain indexing, no
membership guard), before the exception hook is installed; a missing one is
a KeyError.  bool of the string is True iff the string is non-empty. -/
def initializerPrelude (env : ChildEnv) :
    Except String (Bool × PyStr × PyStr) :=
  match envLookup env "__binary__" with
  | none => .error "KeyError: __binary__"
  | some b =>
      match envLookup env "__stdout__" with
      | none => .error "KeyError: __stdout__"
      | some so =>
          match envLookup env "__stderr__" with
          | none => .error "KeyError: __stderr__"
          | some se => .ok (decide (b ≠ []), so, se)

/-! ## The exchange (lines 398-430) -/

/-- What communicate() did: completed with raw streams, or timed out with
the exception text. -/
inductive CommOutcome
  | completed (stdout stderr : List Nat)
  | timedOut (excText : PyStr)
deriving DecidableEq

/-- Lines 384-474 end to end.  Parameter parsing happens before Popen, so a
parameter-type error spawns nothing.  On timeout the child is killed, the
finally block kills tracked descendants when process checking is on, and
the exception carrying the wrapped code propagates — lines 432-444, which
close the sinks, are never reached.  On completion the same finally block
runs and classification consumes the streams. -/
def sendToGimp (cfg : RunConfig) (params : List (String × ParamValue))
    (wrappedCode : PyStr) (outcome : CommOutcome) :
    List Effect × Except RunError RunValue :=
  match parseParameters params with
  | .error e => ([], .error e)
  | .ok _ =>
      match outcome with
      | .timedOut excText =>
          ([.spawned, .killedChild]
             ++ (if cfg.processCheck then [.killedDescendants] else []),
           .error (.timeoutError
             (excText ++ strLit "\nCode that was executed:\n" ++ wrappedCode)))
      | .completed stdout stderr =>
          let post := classifyOutput cfg stdout stderr
          ([.spawned]
             ++ (if cfg.processCheck then [.killedDescendants] else [])
             ++ post.1,
           post.2)

/-! ## Support lemmas for the claim theorems -/

theorem getLastD_nat_irrel (y : List Nat) (d1 d2 : Nat) (h : y ≠ []) :
    y.getLastD d1 = y.getLastD d2 := by
  cases y with
  | nil => exact absurd rfl h
  | cons z zs => rw [List.getLastD_cons, List.getLastD_cons]

theorem getLastD_nat_append (x y : List Nat) (d : Nat) (h : y ≠ []) :
    (x ++ y).getLastD d = y.getLastD d := by
  induction x generalizing d with
  | nil => rfl
  | cons a x' ih =>
      rw [List.cons_append, List.getLastD_cons, ih a]
      exact getLastD_nat_irrel y a d h

theorem dropWhile_append_cases (p : Nat → Bool) (a b : List Nat) :
    (a ++ b).dropWhile p
      = if a.dropWhile p = [] then b.dropWhile p else a.dropWhile p ++ b := by
  induction a with
  | nil => simp
  | cons c a' ih =>
      cases hc : p c with
      | true => simp [List.dropWhile_cons, hc, ih]
      | false => simp [List.dropWhile_cons, hc]

/-- Stripping trailing whitespace is the identity when the last element is
not whitespace. -/
theorem stripRight_no_op (s : List Nat) (h : s ≠ [])
    (hl : pyIsSpace (s.getLastD 0) = false) :
    (s.reverse.dropWhile pyIsSpace).reverse = s := by
  rcases List.eq_nil_or_concat s with rfl | ⟨a, c, rfl⟩
  · exact absurd rfl h
  · rw [List.concat_eq_append] at hl ⊢
    have hc : pyIsSpace c = false := by
      rwa [getLastD_nat_append a [c] 0 (by simp), List.getLastD_cons] at hl
    rw [List.reverse_append, List.reverse_cons, List.reverse_nil,
      List.nil_append, List.singleton_append, List.dropWhile_cons, hc]
    simp

/-- The last line of the stripped text pre ++ "\n" ++ last is last itself
when last holds no newline, is nonempty, and neither starts nor ends with
whitespace. -/
theorem last_split_line (pre last : PyStr) (h10 : 10 ∉ last)
    (hne : last ≠ []) (hhead : pyIsSpace (last.headD 0) = false)
    (hlast : pyIsSpace (last.getLastD 0) = false) :
    (pySplit (pyStrip (pre ++ 10 :: last)) 10).getLastD [] = last := by
  have hlast_dw : last.dropWhile pyIsSpace = last := by
    cases last with
    | nil => rfl
    | cons c r =>
        rw [List.dropWhile_cons]
        have hc : pyIsSpace c = false := hhead
        rw [hc]
        simp
  unfold pyStrip
  rw [dropWhile_append_cases]
  by_cases hp : pre.dropWhile pyIsSpace = []
  · rw [if_pos hp]
    have h1 : (10 :: last).dropWhile pyIsSpace = last := by
      rw [List.dropWhile_cons]
      have : pyIsSpace 10 = true := by decide
      rw [this]
      simp [hlast_dw]
    rw [h1, stripRight_no_op last hne hlast, pySplit_no_sep last 10 h10]
    rfl
  · rw [if_neg hp]
    have hA : ((pre.dropWhile pyIsSpace ++ 10 :: last).reverse.dropWhile
        pyIsSpace).reverse = pre.dropWhile pyIsSpace ++ 10 :: last := by
      apply stripRight_no_op
      · simp
      · rw [getLastD_nat_append _ (10 :: last) 0 (by simp), List.getLastD_cons]
        rwa [getLastD_nat_irrel last 10 0 hne]
    rw [hA, pySplit_append, pySplit_no_sep last 10 h10,
      getLastD_append_of_ne_nil _ [last] [] (by simp)]
    rfl

/-- rsplit head: everything before the last newline. -/
theorem pyRsplitHead_append (pre last : PyStr) (h10 : 10 ∉ last) :
    pyRsplitHead (pre ++ 10 :: last) 10 = pre := by
  unfold pyRsplitHead
  have hrev : (pre ++ 10 :: last).reverse = last.reverse ++ 10 :: pre.reverse := by
    rw [List.reverse_append, List.reverse_cons, List.append_assoc,
      List.singleton_append]
  rw [hrev, List.span_eq_take_drop,
    dropWhile_append_stop _ last.reverse pre.reverse 10
      (fun x hx => by
        have : x ∈ last := List.mem_reverse.mp hx
        simp only [decide_eq_true_eq]
        intro hx10
        exact h10 (hx10 ▸ this))
      (by simp)]
  simp

/-- No occurrence anywhere follows from no occurrence below the length, for
a nonempty pattern. -/
theorem noOcc_of_ball (s sub : PyStr) (hsub : 1 ≤ sub.length)
    (h : ∀ i < s.length, ¬ occursAt s sub i) : ∀ i, ¬ occursAt s sub i := by
  intro i hocc
  have h1 := hocc.1
  rcases Nat.lt_or_ge i s.length with hlt | hge
  · exact h i hlt hocc
  · omega

theorem envLookup_eq_none (env : ChildEnv) (k : String)
    (h : ∀ p ∈ env, p.1 ≠ k) : envLookup env k = none := by
  unfold envLookup
  rw [List.find?_eq_none.mpr (fun p hp => by
    simp only [decide_eq_true_eq]
    exact h p hp)]
  rfl

theorem not_mem_keys_envSet (env : ChildEnv) (k : String) (v : PyStr)
    (k' : String) (h1 : k' ∉ env.map Prod.fst) (h2 : k' ≠ k) :
    k' ∉ (envSet env k v).map Prod.fst := by
  unfold envSet
  by_cases hany : env.any (fun p => p.1 = k)
  · rw [if_pos hany]
    intro hmem
    rw [List.map_map, List.mem_map] at hmem
    obtain ⟨p, hp, hpk⟩ := hmem
    by_cases hpk1 : p.1 = k
    · simp only [Function.comp, hpk1, if_pos rfl] at hpk
      exact h2 hpk.symm
    · simp only [Function.comp, if_neg hpk1] at hpk
      exact h1 (List.mem_map.mpr ⟨p, hp, hpk⟩)
  · rw [if_neg hany]
    intro hmem
    rw [List.map_append, List.mem_append] at hmem
    rcases hmem with hm | hm
    · exact h1 hm
    · simp only [List.map_cons, List.map_nil, List.mem_singleton] at hm
      exact h2 hm

theorem not_mem_keys_envUpdate (us : List (String × PyStr)) (env : ChildEnv)
    (k' : String) (h1 : k' ∉ env.map Prod.fst)
    (h2 : ∀ p ∈ us, p.1 ≠ k') :
    k' ∉ (envUpdate env us).map Prod.fst := by
  induction us generalizing env with
  | nil => exact h1
  | cons u rest ih =>
      obtain ⟨uk, uv⟩ := u
      show k' ∉ (envUpdate (envSet env uk uv) rest).map Prod.fst
      refine ih (envSet env uk uv) ?_ ?_
      · exact not_mem_keys_envSet env uk uv k' h1
          (fun he => h2 (uk, uv) (List.mem_cons_self _ _) he.symm)
      · exact fun p hp => h2 p (List.mem_cons_of_mem _ hp)

/-- The runner never introduces a key absent from the host environment, its
own environment and the parameters, other than the working-directory and
PYTHONPATH entries. -/
theorem buildGimpEnvironment_no_key (hostEnv : ChildEnv)
    (wd p2 : PyStr) (selfEnv : List (String × Option PyStr))
    (params : List (String × PyStr)) (k' : String)
    (h1 : k' ∉ hostEnv.map Prod.fst)
    (h2 : ∀ p ∈ selfEnv, p.1 ≠ k')
    (h3 : ∀ p ∈ params, p.1 ≠ k')
    (h4 : k' ≠ "__working_directory__") (h5 : k' ≠ "PYTHONPATH") :
    envLookup (buildGimpEnvironment hostEnv wd p2 selfEnv params) k' = none := by
  unfold buildGimpEnvironment
  have hh1 : ∀ p ∈ hostEnv, p.1 ≠ k' := by
    intro p hp he
    exact h1 (List.mem_map.mpr ⟨p, hp, he⟩)
  have he1 : k' ∉ (envUpdate [("__working_directory__", wd)] hostEnv).map
      Prod.fst := by
    refine not_mem_keys_envUpdate hostEnv _ k' ?_ hh1
    simp only [List.map_cons, List.map_nil, List.mem_singleton]
    exact h4
  have he2 : ∀ pp, k' ∉ (envSet (envUpdate [("__working_directory__", wd)]
      hostEnv) "PYTHONPATH" pp).map Prod.fst :=
    fun pp => not_mem_keys_envSet _ _ _ _ he1 h5
  have hself : ∀ p ∈ selfEnv.filterMap
      (fun p => p.2.map (fun v => (p.1, v))), p.1 ≠ k' := by
    intro p hp
    rw [List.mem_filterMap] at hp
    obtain ⟨q, hq, hqp⟩ := hp
    cases hq2 : q.2 with
    | none => rw [hq2] at hqp; exact absurd hqp (by simp)
    | some v =>
        rw [hq2] at hqp
        simp only [Option.map_some'] at hqp
        have : p = (q.1, v) := by
          have hq3 := hqp
          simp only [Option.map_some'] at hq3
          exact (Option.some.inj hq3).symm
        rw [this]
        exact h2 q hq
  apply envLookup_eq_none
  intro p hp
  have hmem : k' ∉ (envUpdate (envUpdate (match envLookup (envUpdate
      [("__working_directory__", wd)] hostEnv) "PYTHONPATH" with
      | none => envSet (envUpdate [("__working_directory__", wd)] hostEnv)
          "PYTHONPATH" p2
      | some pp => envSet (envUpdate [("__working_directory__", wd)] hostEnv)
          "PYTHONPATH" (p2 ++ strLit ":" ++ pp))
      (selfEnv.filterMap (fun p => p.2.map (fun v => (p.1, v))))) params).map
      Prod.fst := by
    refine not_mem_keys_envUpdate params _ k' ?_ h3
    refine not_mem_keys_envUpdate _ _ k' ?_ hself
    cases hpp : envLookup (envUpdate [("__working_directory__", wd)] hostEnv)
        "PYTHONPATH" with
    | none => exact he2 p2
    | some pp => exact he2 (p2 ++ strLit ":" ++ pp)
  intro he
  exact hmem (List.mem_map.mpr ⟨p, hp, he⟩)

/-! ## Claim theorems -/

theorem roundtrip_str (name : String) (s : PyStr) :
    get_string [(name, s)] name none = .ok s := by
  unfold get_string
  rw [envLookup_single]

theorem roundtrip_bool (name : String) (b : Bool) :
    get_bool [(name, reprBool b)] name none = .ok b := by
  unfold get_bool
  rw [envLookup_single]
  cases b <;> decide

theorem roundtrip_int (name : String) (n : Int) :
    get_int [(name, reprInt n)] name none = .ok n := by
  unfold get_int
  rw [envLookup_single]
  exact pyParseInt_reprInt n

theorem roundtrip_bytes (name : String) (bs : List Nat)
    (h : ∀ b ∈ bs, b < 256) :
    get_bytes [(name, reprBytes bs)] name none = .ok bs := by
  unfold get_bytes
  rw [envLookup_single]
  exact parseBytesLit_reprBytes bs h

/-- C3: round-trip of scalar parameters.  For every supported scalar value —
strings, bools, ints, byte sequences with byte-sized elements, and floats of
dyadic value (every IEEE double is) other than NaN — host-side encoding
(string passthrough, repr literal otherwise) followed by the matching
engine-side getter returns a value Python == reports equal to the original,
of the original kind.  NaN is excluded: see the counterexample. -/
theorem C3_scalar_roundtrip (name : String) (v : ScalarValue)
    (hwf : scalarWellFormed v) (hnan : v ≠ ScalarValue.vfloat PyFloat.nan) :
    decodesBack name v := by
  cases v with
  | vstr s => exact roundtrip_str name s
  | vbool b => exact roundtrip_bool name b
  | vint n => exact roundtrip_int name n
  | vbytes bs => exact roundtrip_bytes name bs hwf
  | vfloat f =>
      cases f with
      | nan => exact absurd rfl hnan
      | inf =>
          refine ⟨PyFloat.inf, ?_, by decide⟩
          unfold get_float
          rw [envLookup_single]
          decide
      | neginf =>
          refine ⟨PyFloat.neginf, ?_, by decide⟩
          unfold get_float
          rw [envLookup_single]
          decide
      | finite q =>
          obtain ⟨t, ht⟩ := hwf
          refine ⟨PyFloat.finite q, ?_, ?_⟩
          · unfold get_float
            rw [envLookup_single]
            exact pyParseFloat_reprFloat_finite q t ht
          · simp [pyFloatEqB]

/-- C3 witness: the round trip evaluated at edge values — the empty byte
sequence and a negative integer. -/
theorem C3_scalar_roundtrip_witness :
    decodesBack "param" (ScalarValue.vbytes [])
    ∧ decodesBack "param" (ScalarValue.vint (-5)) :=
  ⟨C3_scalar_roundtrip "param" (ScalarValue.vbytes [])
      (by intro b hb; cases hb) (by decide),
   C3_scalar_roundtrip "param" (ScalarValue.vint (-5)) trivial (by decide)⟩

/-- C3 counterexample: a NaN float parameter does not round-trip to a value
equal to the original — get_float returns NaN, and Python == reports NaN
unequal to everything, the original included.  The claim's universal
quantification over all float values fails. -/
theorem C3_nan_no_roundtrip :
    ¬ decodesBack "param" (ScalarValue.vfloat PyFloat.nan) := by
  intro h
  obtain ⟨g, hg, he⟩ := h
  have hv : get_float [("param", encodeScalar (ScalarValue.vfloat PyFloat.nan))]
      "param" none = Except.ok PyFloat.nan := by decide
  rw [hv] at hg
  cases hg
  exact absurd he (by decide)

/-- Is a parameter value of one of the kinds lines 386-392 encode? -/
def encodableParam : ParamValue → Bool
  | .pnone => false
  | .pother _ => false
  | _ => true

theorem encodeParam_ok_of_encodable (v : ParamValue)
    (h : encodableParam v = true) : ∃ w, encodeParam v = .ok w := by
  cases v with
  | pstr s => exact ⟨s, rfl⟩
  | pbool b => exact ⟨reprBool b, rfl⟩
  | pint n => exact ⟨reprInt n, rfl⟩
  | pfloat f => exact ⟨reprFloat f, rfl⟩
  | pbytes bs => exact ⟨reprBytes bs, rfl⟩
  | plist xs => exact ⟨jsonDumps (.jarr xs), rfl⟩
  | ptuple xs => exact ⟨jsonDumps (.jarr xs), rfl⟩
  | pdict kvs => exact ⟨jsonDumps (.jobj kvs), rfl⟩
  | pnone => exact Bool.noConfusion h
  | pother t => exact Bool.noConfusion h

/-- C6: handling of parameter kinds.  Every parameter whose values are all
of the encodable kinds (string, bool, int, float, bytes, list, tuple, dict)
is encoded without error; a None value, however, is not dropped — it falls
through the isinstance ladder to the else branch, and the invocation fails
with the parameter-type error 'Cannot interpret parameter type NoneType'
before any process is spawned (the effect trace is empty). -/
theorem C6_param_kind_handling (cfg : RunConfig) (wrapped : PyStr)
    (outcome : CommOutcome) (params : List (String × ParamValue)) :
    (params.all (fun p => encodableParam p.2) = true →
      ∃ ws, parseParameters params = Except.ok ws)
    ∧ ∀ k rest, params = (k, ParamValue.pnone) :: rest →
        sendToGimp cfg params wrapped outcome
          = ([], .error (.paramTypeError
              (strLit "Cannot interpret parameter type NoneType"))) := by
  constructor
  · intro hall
    induction params with
    | nil => exact ⟨[], rfl⟩
    | cons p rest ih =>
        rw [List.all_cons, Bool.and_eq_true] at hall
        obtain ⟨w, hw⟩ := encodeParam_ok_of_encodable p.2 hall.1
        obtain ⟨ws, hws⟩ := ih hall.2
        refine ⟨(p.1, w) :: ws, ?_⟩
        show (match encodeParam p.2 with
          | .error e => Except.error e
          | .ok w =>
              match parseParameters rest with
              | .error e => Except.error e
              | .ok ws => Except.ok ((p.1, w) :: ws)) = _
        rw [hw, hws]
  · intro k rest hparams
    subst hparams
    rfl

/-- C6 witness: an all-encodable parameter set parses. -/
theorem C6_param_kind_handling_witness :
    ∃ ws, parseParameters [("a", ParamValue.pint 3),
      ("b", ParamValue.pstr (strLit "x"))] = Except.ok ws :=
  (C6_param_kind_handling ⟨false, false, false, false, none⟩ []
    (.completed [] [])
    [("a", ParamValue.pint 3), ("b", ParamValue.pstr (strLit "x"))]).1
    (by decide)

/-- C6 counterexample: a None-valued entry is not dropped from the encoded
set — it makes the invocation fail with the parameter-type error, so the
claimed drop-and-succeed behaviour does not hold. -/
theorem C6_none_raises :
    sendToGimp ⟨true, false, false, false, none⟩ [("a", ParamValue.pnone)]
        [] (.completed [] [])
      = ([], .error (.paramTypeError
          (strLit "Cannot interpret parameter type NoneType")))
    ∧ parseParameters [("a", ParamValue.pnone)]
        ≠ .ok [] := by
  constructor
  · rfl
  · intro h
    cases h

/-- C2: on expiry of the caller's timeout, the runner raises the
timeout exception whose message carries the full wrapped program text
(bootstrap prelude + path extension + caller code + forced-quit suffix) as
a suffix, after killing the child — and, when process-tree checking is on,
the tracked descendants — so both kill effects precede the propagated
error. -/
theorem C2_timeout_kills_and_reports (cfg : RunConfig)
    (params : List (String × ParamValue)) (ps : List (String × PyStr))
    (hp : parseParameters params = .ok ps)
    (init ep code exc : PyStr) :
    ∃ effs msg,
      sendToGimp cfg params (wrapCode init ep code) (.timedOut exc)
        = (effs, .error (.timeoutError msg))
      ∧ (wrapCode init ep code).IsSuffix msg
      ∧ Effect.killedChild ∈ effs
      ∧ (cfg.processCheck = true → Effect.killedDescendants ∈ effs) := by
  refine ⟨[Effect.spawned, Effect.killedChild]
      ++ (if cfg.processCheck then [Effect.killedDescendants] else []),
    exc ++ strLit "\nCode that was executed:\n" ++ wrapCode init ep code,
    ?_, ?_, ?_, ?_⟩
  · show (match parseParameters params with
      | .error e => ([], Except.error e)
      | .ok _ => _) = _
    rw [hp]
  · exact ⟨exc ++ strLit "\nCode that was executed:\n", by
      rw [List.append_assoc]⟩
  · simp
  · intro hpc
    rw [hpc]
    simp

/-- C2 witness: a concrete timed-out exchange. -/
theorem C2_timeout_witness :
    ∃ effs msg,
      sendToGimp ⟨true, false, false, false, none⟩ []
          (wrapCode (strLit "init") (strLit "ep") (strLit "code"))
          (.timedOut (strLit "TimeoutExpired"))
        = (effs, .error (.timeoutError msg))
      ∧ (wrapCode (strLit "init") (strLit "ep") (strLit "code")).IsSuffix msg
      ∧ Effect.killedChild ∈ effs
      ∧ (true = true → Effect.killedDescendants ∈ effs) :=
  C2_timeout_kills_and_reports ⟨true, false, false, false, none⟩ [] [] rfl
    (strLit "init") (strLit "ep") (strLit "code") (strLit "TimeoutExpired")

/-- C5: what the completed paths close.  When both caller-supplied sinks are
present and the exchange completes (in non-binary mode), both sinks are
closed before control returns — and with both sinks redirected the outcome
is the no-output success.  The timeout path, by contrast, closes neither:
see the counterexample. -/
theorem C5_sinks_closed_on_completion (pc : Bool) (f : Option PyStr)
    (params : List (String × ParamValue)) (ps : List (String × PyStr))
    (wrapped : PyStr) (stdout stderr : List Nat)
    (hp : parseParameters params = .ok ps) :
    Effect.closedOutput
        ∈ (sendToGimp ⟨pc, false, true, true, f⟩ params wrapped
            (.completed stdout stderr)).1
    ∧ Effect.closedError
        ∈ (sendToGimp ⟨pc, false, true, true, f⟩ params wrapped
            (.completed stdout stderr)).1
    ∧ (sendToGimp ⟨pc, false, true, true, f⟩ params wrapped
          (.completed stdout stderr)).2 = .ok .noOutput := by
  have hred : sendToGimp ⟨pc, false, true, true, f⟩ params wrapped
      (.completed stdout stderr)
      = (([Effect.spawned]
          ++ (if pc then [Effect.killedDescendants] else []))
          ++ [Effect.closedOutput, Effect.closedError], .ok .noOutput) := by
    show (match parseParameters params with
      | .error e => ([], Except.error e)
      | .ok _ => _) = _
    rw [hp]
    rfl
  rw [hred]
  refine ⟨?_, ?_, rfl⟩ <;> cases pc <;> simp

/-- C5 witness: the completed path with both sinks at a concrete input. -/
theorem C5_sinks_witness :
    Effect.closedOutput
        ∈ (sendToGimp ⟨true, false, true, true, none⟩ [] []
            (.completed [] [])).1
    ∧ Effect.closedError
        ∈ (sendToGimp ⟨true, false, true, true, none⟩ [] []
            (.completed [] [])).1
    ∧ (sendToGimp ⟨true, false, true, true, none⟩ [] []
          (.completed [] [])).2 = .ok .noOutput :=
  C5_sinks_closed_on_completion true none [] [] [] [] [] rfl

/-- C5 counterexample: the timeout exit path closes neither sink — the
raise at line 427 happens before lines 432-444 ever run, so the claimed
every-exit-path closing does not hold. -/
theorem C5_timeout_closes_nothing :
    (sendToGimp ⟨true, false, true, true, none⟩ [] []
        (.timedOut (strLit "t"))).1
      = [Effect.spawned, Effect.killedChild, Effect.killedDescendants]
    ∧ Effect.closedOutput ∉ (sendToGimp ⟨true, false, true, true, none⟩ [] []
        (.timedOut (strLit "t"))).1
    ∧ Effect.closedError ∉ (sendToGimp ⟨true, false, true, true, none⟩ [] []
        (.timedOut (strLit "t"))).1 := by
  refine ⟨rfl, ?_, ?_⟩ <;> decide

/-- C1: sentinel detection as the code implements it.  When stderr ends in
a sentinel line with no trailing newline — the shape the injected exception
hook produces (the hook writes the token without a newline) — the
classifier raises the remote-script error whose message is exactly the
text before the sentinel line plus a newline, rewritten for a file-backed
program.  When the sentinel line is followed by a newline, or the sentinel
sits inside an earlier line, the behaviour deviates from the claim: see the
counterexample. -/
theorem C1_sentinel_message (f : Option PyStr) (pre tail : PyStr)
    (h10 : (10 : Nat) ∉ sentinel ++ tail)
    (hlast : pyIsSpace ((sentinel ++ tail).getLastD 0) = false) :
    classifyStderr f (pre ++ 10 :: (sentinel ++ tail))
      = some (RunError.scriptError (rewriteFileMarker f (pre ++ [10]))) := by
  have hne : sentinel ++ tail ≠ [] := by simp [sentinel, strLit]
  have hhead : pyIsSpace ((sentinel ++ tail).headD 0) = false := by
    show pyIsSpace 95 = false
    decide
  have hs : sentinel.isPrefixOf (sentinel ++ tail) = true := by
    rw [List.isPrefixOf_iff_prefix]
    exact ⟨tail, rfl⟩
  have hsplit := last_split_line pre (sentinel ++ tail) h10 hne hhead hlast
  have hrs := pyRsplitHead_append pre (sentinel ++ tail) h10
  simp only [classifyStderr]
  rw [if_neg (by simp), hsplit, if_pos hs, hrs]

/-- C1 witness: the hook-produced shape at a concrete traceback. -/
theorem C1_sentinel_message_witness :
    classifyStderr none (strLit "boom" ++ 10 :: (sentinel ++ strLit " 1"))
      = some (RunError.scriptError
          (rewriteFileMarker none (strLit "boom" ++ [10]))) :=
  C1_sentinel_message none (strLit "boom") (strLit " 1")
    (by decide) (by decide)

/-- C1 counterexample to the claim as stated.  First: when stderr ends with
a newline after the sentinel line, the raised message is the whole content
including the sentinel line, not the text preceding it.  Second: output
holding the sentinel only inside an earlier line is not classified as
success — any surviving stderr raises the remote-script error. -/
theorem C1_claim_fails :
    classifyStderr none (strLit "oops\n__GIMP_SCRIPT_ERROR__ 1\n")
      = some (RunError.scriptError (strLit "oops\n__GIMP_SCRIPT_ERROR__ 1\n"))
    ∧ strLit "oops\n__GIMP_SCRIPT_ERROR__ 1\n" ≠ strLit "oops\n"
    ∧ classifyStderr none (strLit "x __GIMP_SCRIPT_ERROR__ y\nok") ≠ none := by
  refine ⟨by decide, by decide, by decide⟩

/-- C7: warning stripping idempotence.  Prepending N ≥ 1 repetitions of the
recognized bracketed warning block (newline, "(gimp:", newline-free text,
newline) to an output that does not itself start with the marker and holds
no blank-line-framed marker yields the same stripped result as N = 0, and
that result is the output unchanged — in particular a marker substring
without the framing never falsely triggers stripping. -/
theorem C7_warning_strip_idempotent (w p : PyStr) (N : Nat) (hN : 1 ≤ N)
    (hw1 : 1 ≤ w.length) (hw2 : 10 ∉ w)
    (hp1 : ¬ gimpMarker.isPrefixOf p)
    (hp2 : ∀ i, ¬ occursAt p gimpMarkerFramed i) :
    strip_gimp_warnings (warnBlocks w N ++ p) = strip_gimp_warnings p
    ∧ strip_gimp_warnings p = .ok p := by
  have h0 := strip_gimp_warnings_no_marker p hp1
  exact ⟨by rw [strip_gimp_warnings_blocks w p N hN hw1 hw2 hp1 hp2, h0], h0⟩

/-- C7 witness: two prepended warning blocks before a normal payload. -/
theorem C7_warning_strip_idempotent_witness :
    strip_gimp_warnings (warnBlocks (strLit " Gimp-WARNING: xyz") 2
        ++ strLit "hello\n")
      = strip_gimp_warnings (strLit "hello\n")
    ∧ strip_gimp_warnings (strLit "hello\n") = .ok (strLit "hello\n") :=
  C7_warning_strip_idempotent (strLit " Gimp-WARNING: xyz") (strLit "hello\n")
    2 (by decide) (by decide) (by decide) (by decide)
    (noOcc_of_ball _ _ (by decide) (by decide))

/-- C9: stripping of line-oriented *WARNING* markers keeps only the lines
after the last line starting with *WARNING*, discarding that line and
everything before it (with a sole surviving empty line collapsing to the
empty list); and when nothing remains, the classifier raises no error. -/
theorem C9_initialization_warning_strip (pre post : List PyStr) (w : PyStr)
    (hw : (strLit "*WARNING*").isPrefixOf w)
    (hpost : ∀ l ∈ post, ¬ (strLit "*WARNING*").isPrefixOf l) :
    strip_initialization_warnings (pre ++ w :: post)
        = (if post = [strLit ""] then [] else post)
    ∧ ∀ (f : Option PyStr) (s : PyStr), s ≠ [] →
        sentinel.isPrefixOf ((pySplit (pyStrip s) 10).getLastD []) = false →
        strip_initialization_warnings (pySplit (pyStrip s) 10) = [] →
        classifyStderr f s = none := by
  constructor
  · exact strip_initialization_warnings_marker pre w post hw hpost
  · intro f s hne hsent hstrip
    simp only [classifyStderr]
    rw [if_neg hne, if_neg (by rw [hsent]; exact Bool.noConfusion), hstrip]
    rfl

/-- C9 witness: a warning line before a payload line, and a warning-only
stderr raising nothing. -/
theorem C9_initialization_warning_strip_witness :
    strip_initialization_warnings
        ([strLit "a"] ++ strLit "*WARNING* x" :: [strLit "rest"])
      = (if [strLit "rest"] = [strLit ""] then [] else [strLit "rest"])
    ∧ classifyStderr none (strLit "*WARNING* junk") = none := by
  have h := C9_initialization_warning_strip [strLit "a"] [strLit "rest"]
    (strLit "*WARNING* x") (by decide) (by decide)
  exact ⟨h.1, h.2 none (strLit "*WARNING* junk") (by decide) (by decide)
    (by decide)⟩

/-- C8: the bootstrap reads the redirection variables unconditionally.  The
runner builds the child environment from the working-directory entry, the
host environment, PYTHONPATH, its own entries and the encoded parameters —
it never sets __binary__ — while initializer.py reads __binary__ (then the
sink paths) without a membership guard, before the exception hook is
installed.  A sink-free invocation whose surroundings do not define the
variable therefore fails the bootstrap with a KeyError, contradicting the
claim that the variables are optional and consumed only by sink-requested
redirection code. -/
theorem C8_bootstrap_reads_unconditionally (hostEnv : ChildEnv)
    (wd p2 : PyStr) (selfEnv : List (String × Option PyStr))
    (params : List (String × PyStr))
    (h1 : "__binary__" ∉ hostEnv.map Prod.fst)
    (h2 : ∀ p ∈ selfEnv, p.1 ≠ "__binary__")
    (h3 : ∀ p ∈ params, p.1 ≠ "__binary__") :
    initializerPrelude (buildGimpEnvironment hostEnv wd p2 selfEnv params)
      = .error "KeyError: __binary__" := by
  have hnone := buildGimpEnvironment_no_key hostEnv wd p2 selfEnv params
    "__binary__" h1 h2 h3 (by decide) (by decide)
  unfold initializerPrelude
  rw [hnone]

/-- C8 witness: a concrete sink-free invocation environment. -/
theorem C8_bootstrap_reads_unconditionally_witness :
    initializerPrelude (buildGimpEnvironment [("PATH", strLit "/usr/bin")]
        (strLit "/tmp") (strLit "/p2") [] [("param", strLit "1")])
      = .error "KeyError: __binary__" :=
  C8_bootstrap_reads_unconditionally [("PATH", strLit "/usr/bin")]
    (strLit "/tmp") (strLit "/p2") [] [("param", strLit "1")]
    (by decide) (by decide) (by decide)

/-- C4: binary-mode payload preservation.  A binary invocation whose stdout
is the raw payload preceded by N ≥ 1 recognized warning blocks returns
exactly the payload bytes, provided the payload does not itself look like a
warning marker or a sentinel line; and the latin1 decode/strip/encode
transform used to run line-oriented stripping over binary content is
lossless for every byte value. -/
theorem C4_binary_payload (w payload : PyStr) (N : Nat) (pc : Bool)
    (hN : 1 ≤ N) (hw1 : 1 ≤ w.length) (hw2 : 10 ∉ w)
    (hp1 : ¬ gimpMarker.isPrefixOf payload)
    (hp2 : ∀ i, ¬ occursAt payload gimpMarkerFramed i)
    (hbytes : ∀ b ∈ payload, b < 256)
    (hsent : sentinelTriggered payload = false) :
    classifyOutput ⟨pc, true, false, false, none⟩
        (warnBlocks w N ++ payload) []
      = ([], .ok (.binaryData payload))
    ∧ ∀ bs : PyBytes, (∀ b ∈ bs, b < 256) →
        latin1Encode (latin1Decode bs) = .ok bs := by
  refine ⟨?_, fun bs h => latin1_roundtrip bs h⟩
  have hstrip : strip_gimp_warnings (latin1Decode (warnBlocks w N ++ payload))
      = .ok payload :=
    strip_gimp_warnings_blocks w payload N hN hw1 hw2 hp1 hp2
  have henc : latin1Encode payload = .ok payload := latin1_roundtrip payload hbytes
  simp only [classifyOutput, hstrip, hsent, henc,
    show utf8Decode ([] : List Nat) = Except.ok [] from rfl,
    show strip_gimp_warnings ([] : PyStr) = Except.ok [] from rfl,
    show classifyStderr none ([] : PyStr) = none from rfl,
    Option.getD_some]
  simp only [if_true, Bool.false_eq_true, if_false, Option.getD_some, hsent,
    show classifyStderr none ([] : PyStr) = none from rfl, henc]
  rfl

/-- C4 witness: the three-byte payload 0x00 0x01 0x02 behind one warning
block, and the lossless transform on it. -/
theorem C4_binary_payload_witness :
    classifyOutput ⟨true, true, false, false, none⟩
        (warnBlocks (strLit " W") 1 ++ [0, 1, 2]) []
      = ([], .ok (.binaryData [0, 1, 2]))
    ∧ latin1Encode (latin1Decode [0, 1, 2]) = .ok [0, 1, 2] := by
  have h := C4_binary_payload (strLit " W") [0, 1, 2] 1 true (by decide)
    (by decide) (by decide) (by decide)
    (noOcc_of_ball _ _ (by decide) (by decide)) (by decide) (by decide)
  exact ⟨h.1, h.2 [0, 1, 2] (by decide)⟩

/-- C10: there are inputs on which warning stripping itself fails.  An
output consisting of the warning marker followed by text with no newline
(an unterminated warning block) makes strip_gimp_warnings raise the
GimpException 'Could not find start of output after gimp warnings.', and
classification of such warning-only output in a sink-free text invocation
is that error, not success. -/
theorem C10_unterminated_warning_raises (v : PyStr) (pc : Bool)
    (hv : (10 : Nat) ∉ v) (hva : ∀ c ∈ v, c < 128)
    (hvl : pyIsSpace ((strLit "(gimp:" ++ v).getLastD 0) = false) :
    strip_gimp_warnings (gimpMarker ++ v)
      = .error (strLit "Could not find start of output after gimp warnings.")
    ∧ classifyOutput ⟨pc, false, false, false, none⟩ (gimpMarker ++ v) []
      = ([], .error (.warningStripError
          (strLit "Could not find start of output after gimp warnings."))) := by
  have hno10 : (10 : Nat) ∉ strLit "(gimp:" ++ v := by
    intro hmem
    rcases List.mem_append.mp hmem with h | h
    · exact absurd h (by decide)
    · exact hv h
  have hmem_tail : ∀ j, 1 ≤ j → (10 : Nat) ∈ (gimpMarker ++ v).drop j → False := by
    intro j hj hmem
    have hdd : (gimpMarker ++ v).drop j = (strLit "(gimp:" ++ v).drop (j - 1) := by
      have hj1 : j = (j - 1) + 1 := by omega
      rw [show gimpMarker ++ v = 10 :: (strLit "(gimp:" ++ v) from rfl, hj1]
      rfl
    rw [hdd] at hmem
    exact hno10 (List.mem_of_mem_drop hmem)
  have hfind : pyFind (gimpMarker ++ v) gimpMarkerFramed 8 = none := by
    apply pyFind_eq_none
    intro j hj hocc
    obtain ⟨t, ht⟩ := List.isPrefixOf_iff_prefix.mp hocc.2
    refine hmem_tail j (by omega) ?_
    rw [← ht]
    exact List.mem_append.mpr (Or.inl (by decide))
  have hloop : stripLoop (gimpMarker ++ v) ((gimpMarker ++ v).length + 1) 0
      = 0 := stripLoop_stop _ _ _ hfind
  have hfind10 : pyFind (gimpMarker ++ v) [10] 8 = none := by
    apply pyFind_eq_none
    intro j hj hocc
    rw [occursAt_singleton, head?_drop] at hocc
    refine hmem_tail j (by omega) ?_
    have hd : ((gimpMarker ++ v).drop j).head? = some 10 := by
      rw [head?_drop]
      exact hocc
    exact List.mem_of_mem_head? hd
  have hstrip : strip_gimp_warnings (gimpMarker ++ v)
      = .error (strLit "Could not find start of output after gimp warnings.") := by
    unfold strip_gimp_warnings
    rw [if_pos (by
      rw [List.isPrefixOf_iff_prefix]
      exact ⟨v, rfl⟩)]
    rw [hloop]
    show (match pyFind (gimpMarker ++ v) [10] (0 + gimpMarkerFramed.length) with
      | none =>
          (Except.error (strLit "Could not find start of output after gimp warnings.")
            : Except PyStr PyStr)
      | some outputStart => Except.ok ((gimpMarker ++ v).drop (outputStart + 1)))
      = Except.error (strLit "Could not find start of output after gimp warnings.")
    rw [show (0 + gimpMarkerFramed.length) = 8 from rfl, hfind10]
  refine ⟨hstrip, ?_⟩
  have hsent : sentinelTriggered (gimpMarker ++ v) = false := by
    unfold sentinelTriggered
    have h1 : (pySplit (pyStrip (gimpMarker ++ v)) 10).getLastD []
        = strLit "(gimp:" ++ v := by
      have hh : pyIsSpace ((strLit "(gimp:" ++ v).headD 0) = false := by
        show pyIsSpace 40 = false
        decide
      exact last_split_line [] (strLit "(gimp:" ++ v) hno10
        (by intro h; simp [strLit] at h) hh hvl
    rw [h1]
    rfl
  have hdec : utf8Decode (gimpMarker ++ v) = .ok (gimpMarker ++ v) := by
    apply utf8Decode_ascii
    intro c hc
    rcases List.mem_append.mp hc with h | h
    · have hm : ∀ c ∈ gimpMarker, c < 128 := by decide
      exact hm c h
    · exact hva c h
  simp only [classifyOutput, hdec, hsent, hstrip,
    show utf8Decode ([] : List Nat) = Except.ok [] from rfl,
    show strip_gimp_warnings ([] : PyStr) = Except.ok [] from rfl,
    show classifyStderr none ([] : PyStr) = none from rfl,
    Option.getD_some]
  simp only [if_true, Bool.false_eq_true, if_false, Option.getD_some, hsent,
    show classifyStderr none ([] : PyStr) = none from rfl, hstrip]
  rfl

/-- C10 witness: a concrete unterminated warning output. -/
theorem C10_unterminated_warning_raises_witness :
    strip_gimp_warnings (gimpMarker ++ strLit " Gimp-WARNING: incomplete")
      = .error (strLit "Could not find start of output after gimp warnings.")
    ∧ classifyOutput ⟨true, false, false, false, none⟩
        (gimpMarker ++ strLit " Gimp-WARNING: incomplete") []
      = ([], .error (.warningStripError
          (strLit "Could not find start of output after gimp warnings."))) :=
  C10_unterminated_warning_raises (strLit " Gimp-WARNING: incomplete") true
    (by decide) (by decide) (by decide)

end Pgimp
